import Mathlib

/-!
Verification of the messageflow core (schema merge, diff/changelog, and the
D2 projection engine) against its natural-language specification.

The Go source is shallowly embedded:
* Go strings are `String`, Go byte-wise string comparison is the structural
  `strLt` below (UTF-8 byte order coincides with code-point order, which is
  what Lean's lexicographic order on `String` uses; the bridge lemmas relate
  the two).
* Go `map[string]T` values are modelled as association lists with unique keys
  (`mapInsert` overwrites in place, `mapLookup` finds the unique entry).  Go
  map iteration order is unspecified; everywhere the embedded code iterates a
  map we fix insertion order as the (deterministic) model of one admissible
  execution.  All verified properties except the connection-clobbering
  counterexample are order-insensitive (memberships, counts, emptiness).
* `sort.Slice` / `sort.Strings` are unstable sorts; they are modelled with
  `List.insertionSort`, which produces a sorted permutation just as the Go
  routines do.  No verified property depends on the order of ties.
* External libraries (go-cmp textual diffs, text/template rendering) are
  modelled as total stand-in functions; no claim inspects their output.
-/

namespace MessageFlow

/-! ## Byte-wise lexicographic string comparison (Go `<` on strings) -/

/-- Lexicographic comparison of character lists, mirroring Go's byte-wise
string comparison (UTF-8 byte order equals code-point order). -/
def charsLt : List Char → List Char → Bool
  | [], [] => false
  | [], _ :: _ => true
  | _ :: _, [] => false
  | c :: cs, d :: ds => if c < d then true else if d < c then false else charsLt cs ds

/-- Go string comparison `a < b`. -/
def strLt (a b : String) : Bool := charsLt a.data b.data

theorem charsLt_iff (cs ds : List Char) :
    charsLt cs ds = true ↔ List.Lex (fun a b => a < b) cs ds := by
  induction cs generalizing ds with
  | nil =>
    cases ds with
    | nil =>
      simp only [charsLt, Bool.false_eq_true, false_iff]
      intro h; cases h
    | cons d ds =>
      simp only [charsLt, true_iff]
      exact List.Lex.nil
  | cons c cs ih =>
    cases ds with
    | nil =>
      simp only [charsLt, Bool.false_eq_true, false_iff]
      intro h; cases h
    | cons d ds =>
      by_cases hcd : c < d
      · simp only [charsLt, hcd, if_pos, true_iff]
        exact List.Lex.rel hcd
      · by_cases hdc : d < c
        · simp only [charsLt, hcd, hdc, if_neg, if_pos, not_false_iff,
            Bool.false_eq_true, false_iff]
          intro h
          cases h with
          | cons h' => exact lt_irrefl _ hdc
          | rel h' => exact hcd h'
        · have heq : c = d :=
            le_antisymm (not_lt.mp hdc) (not_lt.mp hcd)
          subst heq
          simp only [charsLt, lt_irrefl, if_neg, not_false_iff]
          rw [List.Lex.cons_iff]
          exact ih ds

theorem strLt_iff (a b : String) : strLt a b = true ↔ a < b := by
  rw [String.lt_iff_toList_lt]
  exact charsLt_iff a.data b.data

theorem strLt_false_iff (a b : String) : strLt a b = false ↔ b ≤ a := by
  rw [← not_lt, ← strLt_iff]
  cases h : strLt a b <;> simp

/-! ## The normalized model (Go package `messageflow`) -/

/-- `Message` represents a message with a name and payload. -/
structure Message where
  Name : String
  Payload : String
deriving DecidableEq, Repr

/-- `Channel` represents a communication channel with a name and messages. -/
structure Channel where
  Name : String
  Messages : List Message
deriving DecidableEq, Repr

/-- `Operation` defines an action on a channel, optionally with a reply
channel.  Go's `Action` is a string type, kept as `String` here. -/
structure Operation where
  Action : String
  Channel : Channel
  Reply : Option MessageFlow.Channel
deriving DecidableEq, Repr

/-- `Service` represents a service with its name and operations. -/
structure Service where
  Name : String
  Description : String
  Operation : List Operation
deriving DecidableEq, Repr

/-- `Schema` defines the structure of a message flow schema. -/
structure Schema where
  Services : List Service
deriving DecidableEq, Repr

/-- `Change` represents a single change in the schema.  The timestamp
(`time.Time` in Go, produced by `time.Now()` in `CompareSchemas`) is
threaded as an abstract `Nat` input. -/
structure Change where
  type : String
  Category : String
  Name : String
  Details : String
  Diff : String
  Timestamp : Nat
deriving DecidableEq, Repr

/-- `Changelog` is a collection of changes with a date. -/
structure Changelog where
  Date : Nat
  Changes : List Change
deriving DecidableEq, Repr

/-- `FormatOptions` selects a projection mode (Go `FormatMode` is a string
type). -/
structure FormatOptions where
  Mode : String
  Service : String
  Channel : String
  OmitPayloads : Bool
deriving DecidableEq, Repr

/-- A formatted schema payload tagged with its target type. -/
structure FormattedSchema where
  type : String
  Data : String
deriving DecidableEq, Repr

def ActionSend : String := "send"
def ActionReceive : String := "receive"
def ChangeTypeAdded : String := "added"
def ChangeTypeRemoved : String := "removed"
def ChangeTypeChanged : String := "changed"
def FormatModeContextServices : String := "context_services"
def FormatModeServiceChannels : String := "service_channels"
def FormatModeChannelServices : String := "channel_services"
def FormatModeServiceServices : String := "service_services"

/-- The single quote character used by the `fmt.Sprintf` detail strings. -/
def sq : String := (Char.ofNat 39).toString

/-- `fmt.Sprintf("'%s'", s)`. -/
def quoted (s : String) : String := sq ++ s ++ sq

/-! ## Go `map[string]T`, modelled as an association list with unique keys.

`mapInsert` is Go's `m[k] = v` (overwrite in place or append);
`mapLookup` is Go's `v, ok := m[k]`.  Iterating the list models iterating
the Go map in insertion order. -/

def mapInsert {α : Type} (m : List (String × α)) (k : String) (v : α) :
    List (String × α) :=
  if m.any (fun e => decide (e.1 = k)) then
    m.map (fun e => if e.1 = k then (k, v) else e)
  else m ++ [(k, v)]

def mapLookup {α : Type} (m : List (String × α)) (k : String) : Option α :=
  (m.find? (fun e => decide (e.1 = k))).map (fun e => e.2)

/-- Build a map from a list, keying each element by `keyf` (later elements
overwrite earlier ones, as repeated Go map assignment does). -/
def buildMap {α : Type} (keyf : α → String) (xs : List α) : List (String × α) :=
  xs.foldl (fun m x => mapInsert m (keyf x) x) []

/-! ## Core operations (`pkg/messageflow/messageflow.go`) -/

/-- The name of the first message of a channel, `""` when there is none
(the `messageName` extraction inside `operationKey`). -/
def firstMessageName (c : Channel) : String :=
  match c.Messages with
  | [] => ""
  | m :: _ => m.Name

/-- `operationKey` builds the structural identity key of an operation. -/
def operationKey (op : Operation) : String :=
  let key := op.Action ++ "-" ++ op.Channel.Name ++ "-" ++ firstMessageName op.Channel
  match op.Reply with
  | some reply => key ++ "-reply-" ++ reply.Name ++ "-" ++ firstMessageName reply
  | none => key

/-- The components `operationKey` is built from: action, primary channel
name, first primary message name, and (when a reply is present) the reply
channel name and first reply message name. -/
def keyComponents (op : Operation) :
    String × String × String × Option (String × String) :=
  (op.Action, op.Channel.Name, firstMessageName op.Channel,
    op.Reply.map (fun r => (r.Name, firstMessageName r)))

/-- The `less` closure of the operation sort in `Schema.Sort`. -/
def goOpLess (op1 op2 : Operation) : Bool :=
  if op1.Action ≠ op2.Action then strLt op1.Action op2.Action
  else if op1.Channel.Name ≠ op2.Channel.Name then
    strLt op1.Channel.Name op2.Channel.Name
  else
    match op1.Channel.Messages, op2.Channel.Messages with
    | m1 :: _, m2 :: _ => strLt m1.Name m2.Name
    | ms1, ms2 => decide (ms2.length < ms1.length)

/-- The `less` closure of the service sort in `Schema.Sort`. -/
def goSvcLess (s1 s2 : Service) : Bool := strLt s1.Name s2.Name

/-- `Schema.Sort`: sorts each service's operations, then the services
(`sort.Slice`, modelled by a sorted permutation). -/
def Schema.Sort (s : Schema) : Schema :=
  ⟨(s.Services.map (fun svc =>
      { svc with
        Operation := svc.Operation.insertionSort
          (fun a b => goOpLess b a = false) })).insertionSort
    (fun a b => goSvcLess b a = false)⟩

/-- One step of `MergeSchemas`: fold a single service into the service map. -/
def mergeProcessService (serviceMap : List (String × Service))
    (service : Service) : List (String × Service) :=
  match mapLookup serviceMap service.Name with
  | some existingService =>
      let opMap := buildMap operationKey
        (existingService.Operation ++ service.Operation)
      mapInsert serviceMap service.Name
        { existingService with Operation := opMap.map (fun e => e.2) }
  | none => mapInsert serviceMap service.Name service

/-- `MergeSchemas` combines multiple schemas into one. -/
def MergeSchemas (schemas : List Schema) : Schema :=
  ⟨(schemas.foldl (fun m schema => schema.Services.foldl mergeProcessService m)
      []).map (fun e => e.2)⟩

/-- Stand-in for the textual diff of the external go-cmp library
(`cmp.Diff`); its output format is outside the verified core and no claim
inspects the diff text. -/
def cmpDiff (oldMs newMs : List Message) : String :=
  String.intercalate "," (oldMs.map Message.Name) ++ "=>" ++
    String.intercalate "," (newMs.map Message.Name)

/-- The matched-key branch of `compareServiceOperations`: compare primary
messages, then reply messages / reply presence of two operations sharing an
operation key. -/
def diffMatchedOps (serviceName key : String) (oldOp newOp : Operation)
    (timestamp : Nat) : List Change :=
  (if oldOp.Channel.Messages ≠ newOp.Channel.Messages then
    [{ type := ChangeTypeChanged, Category := "message",
       Name := serviceName ++ ":" ++ key,
       Details := "Messages changed for operation " ++ quoted newOp.Action ++
         " on channel " ++ quoted newOp.Channel.Name ++ " in service " ++
         quoted serviceName,
       Diff := cmpDiff oldOp.Channel.Messages newOp.Channel.Messages,
       Timestamp := timestamp }]
  else []) ++
  (match oldOp.Reply, newOp.Reply with
  | some oldReply, some newReply =>
      if oldReply.Messages ≠ newReply.Messages then
        [{ type := ChangeTypeChanged, Category := "message",
           Name := serviceName ++ ":" ++ key ++ ":reply",
           Details := "Reply messages changed for operation " ++
             quoted newOp.Action ++ " on channel " ++
             quoted newOp.Channel.Name ++ " in service " ++ quoted serviceName,
           Diff := cmpDiff oldReply.Messages newReply.Messages,
           Timestamp := timestamp }]
      else []
  | some _, none =>
      [{ type := ChangeTypeRemoved, Category := "channel",
         Name := serviceName ++ ":" ++ key ++ ":reply",
         Details := "Reply channel removed for operation " ++
           quoted newOp.Action ++ " on channel " ++ quoted newOp.Channel.Name ++
           " in service " ++ quoted serviceName,
         Diff := "", Timestamp := timestamp }]
  | none, some _ =>
      [{ type := ChangeTypeAdded, Category := "channel",
         Name := serviceName ++ ":" ++ key ++ ":reply",
         Details := "Reply channel added for operation " ++
           quoted newOp.Action ++ " on channel " ++ quoted newOp.Channel.Name ++
           " in service " ++ quoted serviceName,
         Diff := "", Timestamp := timestamp }]
  | none, none => [])

/-- `compareServiceOperations` diffs the operations of two same-named
services, matching operations by `operationKey`. -/
def compareServiceOperations (oldService newService : Service)
    (timestamp : Nat) : List Change :=
  let oldOps := buildMap operationKey oldService.Operation
  let newOps := buildMap operationKey newService.Operation
  (newOps.filterMap (fun e =>
    if (mapLookup oldOps e.1).isSome then none
    else some
      { type := ChangeTypeAdded, Category := "channel",
        Name := newService.Name ++ ":" ++ e.1,
        Details := quoted e.2.Action ++ " on channel " ++
          quoted e.2.Channel.Name ++ " was added to service " ++
          quoted newService.Name,
        Diff := "", Timestamp := timestamp })) ++
  (oldOps.flatMap (fun e =>
    match mapLookup newOps e.1 with
    | none =>
        [{ type := ChangeTypeRemoved, Category := "channel",
           Name := oldService.Name ++ ":" ++ e.1,
           Details := quoted e.2.Action ++ " on channel " ++
             quoted e.2.Channel.Name ++ " was removed from service " ++
             quoted oldService.Name,
           Diff := "", Timestamp := timestamp }]
    | some newOp => diffMatchedOps newService.Name e.1 e.2 newOp timestamp))

/-- `CompareSchemas` compares two schemas and returns a changelog.  The Go
code takes `now := time.Now()`; it is threaded as an input here. -/
def CompareSchemas (oldSchema newSchema : Schema) (now : Nat) : Changelog :=
  let oldServices := buildMap Service.Name oldSchema.Services
  let newServices := buildMap Service.Name newSchema.Services
  let changes :=
    (newServices.filterMap (fun e =>
      if (mapLookup oldServices e.1).isSome then none
      else some
        { type := ChangeTypeAdded, Category := "service", Name := e.1,
          Details := quoted e.2.Name ++ " was added",
          Diff := "", Timestamp := now })) ++
    (oldServices.flatMap (fun e =>
      match mapLookup newServices e.1 with
      | none =>
          [{ type := ChangeTypeRemoved, Category := "service", Name := e.1,
             Details := quoted e.1 ++ " was removed",
             Diff := "", Timestamp := now }]
      | some newService => compareServiceOperations e.2 newService now))
  { Date := now, Changes := changes }

/-! ## D2 projection engine (`target/d2/d2.go`, most evolved snapshot) -/

/-- The payload of the channel-services view. -/
structure ChannelServicesPayload where
  Channel : String
  Message : String
  MessageName : String
  ReplyMessage : Option String
  ReplyMessageName : Option String
  Senders : List String
  Receivers : List String
  OmitPayloads : Bool
deriving DecidableEq, Repr

/-- A service-to-service connection of the context view. -/
structure Connection where
  From : String
  To : String
  Label : String
  Bidirectional : Bool
deriving DecidableEq, Repr

/-- The payload of the context-services view. -/
structure ContextServicesPayload where
  Services : List Service
  Connections : List Connection
deriving DecidableEq, Repr

/-- The payload of the service-services (neighbors) view. -/
structure ServiceServicesPayload where
  MainService : Service
  NeighborServices : List Service
deriving DecidableEq, Repr

/-- The zero value `messageflow.Service{}`. -/
def emptyService : Service := { Name := "", Description := "", Operation := [] }

/-- `prepareServiceChannelsPayload` resolves the service of the
service-channels view. -/
def prepareServiceChannelsPayload (s : Schema) (serviceName : String) : Service :=
  if serviceName = "" ∧ s.Services.length = 1 then s.Services.headD emptyService
  else
    match s.Services.find? (fun svc => decide (svc.Name = serviceName)) with
    | some svc => svc
    | none => emptyService

/-- The `switch op.Action` of `prepareChannelServicesPayload`: record the
service as sender or receiver. -/
def channelServicesActionStep (svcName : String)
    (payload : ChannelServicesPayload) (op : Operation) :
    ChannelServicesPayload :=
  if op.Action = ActionSend then
    { payload with Senders := payload.Senders ++ [svcName] }
  else if op.Action = ActionReceive then
    { payload with Receivers := payload.Receivers ++ [svcName] }
  else payload

/-- The representative primary message update (longest payload wins). -/
def channelServicesMessageStep (payload : ChannelServicesPayload)
    (op : Operation) : ChannelServicesPayload :=
  match op.Channel.Messages with
  | [] => payload
  | firstMessage :: _ =>
    if payload.Message.length < firstMessage.Payload.length then
      { payload with Message := firstMessage.Payload,
                     MessageName := firstMessage.Name }
    else payload

/-- The representative reply message update (longest payload wins). -/
def channelServicesReplyStep (payload : ChannelServicesPayload)
    (op : Operation) : ChannelServicesPayload :=
  match op.Reply with
  | none => payload
  | some reply =>
    match reply.Messages with
    | [] => payload
    | firstReplyMessage :: _ =>
      match payload.ReplyMessage with
      | none =>
        { payload with ReplyMessage := some firstReplyMessage.Payload,
                       ReplyMessageName := some firstReplyMessage.Name }
      | some rm =>
        if rm.length < firstReplyMessage.Payload.length then
          { payload with ReplyMessage := some firstReplyMessage.Payload,
                         ReplyMessageName := some firstReplyMessage.Name }
        else payload

/-- The body of the double loop of `prepareChannelServicesPayload`,
processing one operation of a service: operations are matched on the
primary channel name only. -/
def channelServicesStep (channel svcName : String)
    (payload : ChannelServicesPayload) (op : Operation) :
    ChannelServicesPayload :=
  if op.Channel.Name = channel then
    channelServicesReplyStep
      (channelServicesMessageStep
        (channelServicesActionStep svcName payload op) op) op
  else payload

/-- `prepareChannelServicesPayload` collects senders/receivers of a channel
and representative messages (longest payload wins). -/
def prepareChannelServicesPayload (s : Schema) (channel : String)
    (omitPayloads : Bool) : ChannelServicesPayload :=
  s.Services.foldl
    (fun p svc => svc.Operation.foldl (channelServicesStep channel svc.Name) p)
    { Channel := channel, Message := "", MessageName := "",
      ReplyMessage := none, ReplyMessageName := none,
      Senders := [], Receivers := [], OmitPayloads := omitPayloads }

/-- `strings.Fields`: split on whitespace, dropping empty fields. -/
def splitWords (s : String) : List String :=
  (s.split (fun c => c.isWhitespace)).filter (fun w => decide (w ≠ ""))

/-- Group words into chunks of 7, each joined by single spaces. -/
def chunkWords : List String → List String
  | [] => []
  | w :: rest =>
      String.intercalate " " (List.take 7 (w :: rest)) ::
        chunkWords (List.drop 7 (w :: rest))
termination_by ws => ws.length
decreasing_by simp [List.length_drop]; omega

/-- `formatDescription` reflows a description into lines of 7 words. -/
def formatDescription (desc : String) : String :=
  if desc = "" then ""
  else
    let words := splitWords desc
    if words.length ≤ 7 then desc
    else String.intercalate ("  " ++ String.singleton (Char.ofNat 10)) (chunkWords words)

/-- `findServiceByName` returns the first service with the given name, or
the zero service. -/
def findServiceByName (s : Schema) (name : String) : Service :=
  match s.Services.find? (fun svc => decide (svc.Name = name)) with
  | some svc => svc
  | none => emptyService

/-- `determineConnectionLabel` classifies the traffic between two services
as publish and/or request-reply. -/
def determineConnectionLabel (s : Schema) (service1 service2 : String) :
    String :=
  let svc1 := findServiceByName s service1
  let svc2 := findServiceByName s service2
  let sharedOps := svc1.Operation.flatMap (fun op1 =>
    svc2.Operation.filterMap (fun op2 =>
      if op1.Channel.Name = op2.Channel.Name then some (op1, op2) else none))
  let hasReq := sharedOps.any (fun e =>
    (decide (e.1.Action = ActionSend) && decide (e.2.Action = ActionReceive) &&
      e.1.Reply.isSome) ||
    (decide (e.1.Action = ActionReceive) && decide (e.2.Action = ActionSend) &&
      e.2.Reply.isSome))
  let hasPub := sharedOps.any (fun e =>
    (decide (e.1.Action = ActionSend) && decide (e.2.Action = ActionReceive) &&
      e.1.Reply.isNone) ||
    (decide (e.1.Action = ActionReceive) && decide (e.2.Action = ActionSend) &&
      e.2.Reply.isNone))
  if hasPub && hasReq then "Pub/Req" else if hasReq then "Req" else "Pub"

/-- The first pass of `prepareContextServicesPayload`:
`servicePairs[n1][n2]` is set iff some service named `n1` has a `send`
operation on a channel some other service named `n2` `receive`s on. -/
def pairHasSend (s : Schema) (n1 n2 : String) : Bool :=
  s.Services.any (fun svc =>
    decide (svc.Name = n1) && svc.Operation.any (fun op =>
      decide (op.Action = ActionSend) && s.Services.any (fun otherService =>
        decide (otherService.Name ≠ svc.Name) &&
        decide (otherService.Name = n2) &&
        otherService.Operation.any (fun otherOp =>
          decide (otherOp.Channel.Name = op.Channel.Name) &&
          decide (otherOp.Action = ActionReceive)))))

/-- The canonical direction of the connection created for the processed
pair `(service1, service2)`: for a bidirectional pair the lexicographically
smaller name comes first. -/
def canonPair (s : Schema) (service1 service2 : String) : String × String :=
  let bidirectional := pairHasSend s service2 service1
  if bidirectional && strLt service1 service2 then (service1, service2)
  else if bidirectional then (service2, service1)
  else (service1, service2)

/-- The `"%s->%s"` key of the connection map. -/
def keyOfPair (p : String × String) : String := p.1 ++ "->" ++ p.2

/-- The connection value written for the processed pair
`(service1, service2)`. -/
def connOfPair (s : Schema) (service1 service2 : String) : Connection :=
  let p := canonPair s service1 service2
  { From := p.1, To := p.2,
    Label := determineConnectionLabel s p.1 p.2,
    Bidirectional := pairHasSend s service2 service1 }

/-- Deterministic enumeration of the entries of `servicePairs` (one
admissible Go map iteration order). -/
def servicePairsList (s : Schema) : List (String × String) :=
  s.Services.flatMap (fun svc =>
    s.Services.filterMap (fun otherService =>
      if pairHasSend s svc.Name otherService.Name then
        some (svc.Name, otherService.Name)
      else none))

/-- The key/value writes into `connectionMap`, in enumeration order. -/
def contextEntries (s : Schema) : List (String × Connection) :=
  (servicePairsList s).map (fun e =>
    (keyOfPair (canonPair s e.1 e.2), connOfPair s e.1 e.2))

/-- Go map semantics for `connectionMap`: the last write to a key wins. -/
def ctxLastLookup (entries : List (String × Connection)) (k : String) :
    Option Connection :=
  ((entries.filter (fun e => decide (e.1 = k))).getLast?).map (fun e => e.2)

/-- The distinct keys of `connectionMap`, sorted (`sort.Strings`). -/
def contextKeys (s : Schema) : List String :=
  (((contextEntries s).map (fun e => e.1)).dedup).insertionSort
    (fun a b => strLt b a = false)

/-- `prepareContextServicesPayload` builds the context view: reformatted
services plus the deduplicated, key-sorted connection list. -/
def prepareContextServicesPayload (s : Schema) : ContextServicesPayload :=
  { Services := s.Services.map (fun svc =>
      { svc with Description := formatDescription svc.Description }),
    Connections := (contextKeys s).filterMap (ctxLastLookup (contextEntries s)) }

/-- The main-service resolution shared by the service views: the single
service when no name is given and there is exactly one, else the first
service with the given name, else the zero service. -/
def resolveMainService (s : Schema) (serviceName : String) : Service :=
  if serviceName = "" ∧ s.Services.length = 1 then s.Services.headD emptyService
  else
    match s.Services.find? (fun svc => decide (svc.Name = serviceName)) with
    | some svc => svc
    | none => emptyService

/-- The loop body of the neighbor scan of `prepareServiceServicesPayload`:
the accumulator carries the neighbor list and the seen-name set
(`neighborServiceMap`). -/
def serviceNeighborsStep (mainService : Service)
    (sendChannels receiveChannels : List String)
    (acc : List Service × List String) (svc : Service) :
    List Service × List String :=
  if svc.Name = mainService.Name then acc
  else if (svc.Operation.any (fun op =>
        decide (op.Action = ActionSend) &&
        decide (op.Channel.Name ∈ receiveChannels)) ||
      svc.Operation.any (fun op =>
        decide (op.Action = ActionReceive) &&
        decide (op.Channel.Name ∈ sendChannels))) &&
      !(decide (svc.Name ∈ acc.2)) then
    (acc.1 ++ [svc], acc.2 ++ [svc.Name])
  else acc

/-- `prepareServiceServicesPayload` resolves the main service and collects
its neighbors (first-match insertion order, deduplicated, main excluded). -/
def prepareServiceServicesPayload (s : Schema) (serviceName : String) :
    ServiceServicesPayload :=
  let mainService := resolveMainService s serviceName
  let mainServiceSendChannels := mainService.Operation.filterMap (fun op =>
    if op.Action = ActionSend then some op.Channel.Name else none)
  let mainServiceReceiveChannels := mainService.Operation.filterMap (fun op =>
    if op.Action = ActionReceive then some op.Channel.Name else none)
  { MainService := mainService,
    NeighborServices :=
      (s.Services.foldl
        (serviceNeighborsStep mainService mainServiceSendChannels
          mainServiceReceiveChannels)
        ([], [])).1 }

/-- The error type of the embedded core (Go returns `error` values; only
the unsupported-format-mode error is relevant to the verified claims). -/
inductive MFError where
  | unsupportedFormatMode (given : String) (expected : List String)
deriving DecidableEq, Repr

/-- Stand-in for `text/template` rendering of the service-channels view
(template files are outside the verified core; no claim inspects the
rendered text). -/
def renderServiceChannels (p : Service) : String := "service_channels:" ++ p.Name

/-- Stand-in for `text/template` rendering of the channel-services view. -/
def renderChannelServices (p : ChannelServicesPayload) : String :=
  "channel_services:" ++ p.Channel

/-- Stand-in for `text/template` rendering of the context-services view. -/
def renderContextServices (p : ContextServicesPayload) : String :=
  "context_services:" ++ String.intercalate "," (p.Connections.map Connection.From)

/-- Stand-in for `text/template` rendering of the service-services view. -/
def renderServiceServices (p : ServiceServicesPayload) : String :=
  "service_services:" ++ p.MainService.Name

/-- The supported-mode list of the unsupported-format-mode error, in the
order the Go code lists it. -/
def supportedFormatModes : List String :=
  [FormatModeServiceChannels, FormatModeChannelServices,
   FormatModeContextServices, FormatModeServiceServices]

/-- `Target.FormatSchema`: dispatch on the format mode, or fail with the
unsupported-format-mode error. -/
def FormatSchema (s : Schema) (opts : FormatOptions) :
    Except MFError FormattedSchema :=
  if opts.Mode = FormatModeContextServices then
    Except.ok
      { type := "d2",
        Data := renderContextServices (prepareContextServicesPayload s) }
  else if opts.Mode = FormatModeServiceChannels then
    Except.ok
      { type := "d2",
        Data := renderServiceChannels (prepareServiceChannelsPayload s opts.Service) }
  else if opts.Mode = FormatModeChannelServices then
    Except.ok
      { type := "d2",
        Data := renderChannelServices
          (prepareChannelServicesPayload s opts.Channel opts.OmitPayloads) }
  else if opts.Mode = FormatModeServiceServices then
    Except.ok
      { type := "d2",
        Data := renderServiceServices (prepareServiceServicesPayload s opts.Service) }
  else
    Except.error (MFError.unsupportedFormatMode opts.Mode supportedFormatModes)

/-! ## Lemmas about the Go map model -/

theorem any_key_iff {α : Type} (m : List (String × α)) (k : String) :
    m.any (fun e => decide (e.1 = k)) = true ↔ ∃ e ∈ m, e.1 = k := by
  rw [List.any_eq_true]
  simp

theorem find?_map_overwrite {α : Type} (m : List (String × α)) (k : String)
    (v : α) (h : ∃ e ∈ m, e.1 = k) :
    (m.map (fun e => if e.1 = k then (k, v) else e)).find?
      (fun e => decide (e.1 = k)) = some (k, v) := by
  induction m with
  | nil => simp at h
  | cons e rest ih =>
    by_cases he : e.1 = k
    · simp [he, List.find?_cons_of_pos]
    · rw [List.map_cons, if_neg he, List.find?_cons_of_neg]
      · apply ih
        rcases h with ⟨e', he', hk⟩
        rcases List.mem_cons.mp he' with h1 | h1
        · exact absurd (h1 ▸ hk) he
        · exact ⟨e', h1, hk⟩
      · simp [he]

theorem find?_key_cons {α : Type} (e : String × α) (rest : List (String × α))
    (k : String) :
    (e :: rest).find? (fun x => decide (x.1 = k)) =
      if e.1 = k then some e else rest.find? (fun x => decide (x.1 = k)) := by
  by_cases h : e.1 = k
  · rw [if_pos h]
    apply List.find?_cons_of_pos
    simp [h]
  · rw [if_neg h]
    apply List.find?_cons_of_neg
    simp [h]

theorem find?_map_overwrite_ne {α : Type} (m : List (String × α))
    (k k' : String) (v : α) (h : k' ≠ k) :
    (m.map (fun e => if e.1 = k then (k, v) else e)).find?
      (fun e => decide (e.1 = k')) = m.find? (fun e => decide (e.1 = k')) := by
  induction m with
  | nil => simp
  | cons e rest ih =>
    rw [List.map_cons]
    by_cases he : e.1 = k
    · rw [if_pos he, find?_key_cons, find?_key_cons,
        if_neg (fun hh : (k, v).1 = k' => h hh.symm),
        if_neg (fun hh : e.1 = k' => h (hh.symm.trans he))]
      exact ih
    · rw [if_neg he, find?_key_cons, find?_key_cons]
      by_cases hk' : e.1 = k'
      · rw [if_pos hk', if_pos hk']
      · rw [if_neg hk', if_neg hk']
        exact ih

theorem mapLookup_insert_self {α : Type} (m : List (String × α)) (k : String)
    (v : α) : mapLookup (mapInsert m k v) k = some v := by
  unfold mapInsert mapLookup
  by_cases h : m.any (fun e => decide (e.1 = k)) = true
  · rw [if_pos h, find?_map_overwrite m k v ((any_key_iff m k).mp h)]
    rfl
  · rw [if_neg h, List.find?_append]
    have hnone : m.find? (fun e => decide (e.1 = k)) = none := by
      rw [List.find?_eq_none]
      intro e he
      simp only [decide_eq_true_eq]
      intro hk
      exact h ((any_key_iff m k).mpr ⟨e, he, hk⟩)
    rw [hnone]
    simp

theorem mapLookup_insert_ne {α : Type} (m : List (String × α)) (k k' : String)
    (v : α) (h : k' ≠ k) :
    mapLookup (mapInsert m k v) k' = mapLookup m k' := by
  unfold mapInsert mapLookup
  by_cases hany : m.any (fun e => decide (e.1 = k)) = true
  · rw [if_pos hany, find?_map_overwrite_ne m k k' v h]
  · rw [if_neg hany, List.find?_append]
    have hnone : List.find? (fun e => decide (e.1 = k')) [(k, v)] = none := by
      rw [find?_key_cons, if_neg (fun hh : (k, v).1 = k' => h hh.symm)]
      rfl
    rw [hnone]
    cases m.find? (fun e => decide (e.1 = k')) <;> simp

theorem mem_mapInsert {α : Type} (m : List (String × α)) (k : String) (v : α)
    (e : String × α) (h : e ∈ mapInsert m k v) : e = (k, v) ∨ e ∈ m := by
  unfold mapInsert at h
  by_cases hany : m.any (fun e => decide (e.1 = k)) = true
  · rw [if_pos hany] at h
    rcases List.mem_map.mp h with ⟨e', he', heq⟩
    by_cases hk : e'.1 = k
    · rw [if_pos hk] at heq
      exact Or.inl heq.symm
    · rw [if_neg hk] at heq
      exact Or.inr (heq ▸ he')
  · rw [if_neg hany] at h
    rcases List.mem_append.mp h with h1 | h1
    · exact Or.inr h1
    · exact Or.inl (List.mem_singleton.mp h1)

theorem mem_foldl_insert {α : Type} (keyf : α → String) (xs : List α)
    (m0 : List (String × α)) (e : String × α)
    (h : e ∈ xs.foldl (fun m x => mapInsert m (keyf x) x) m0) :
    (∃ x ∈ xs, e = (keyf x, x)) ∨ e ∈ m0 := by
  induction xs generalizing m0 with
  | nil => exact Or.inr h
  | cons x rest ih =>
    rcases ih (mapInsert m0 (keyf x) x) h with h1 | h1
    · rcases h1 with ⟨y, hy, hey⟩
      exact Or.inl ⟨y, List.mem_cons_of_mem x hy, hey⟩
    · rcases mem_mapInsert m0 (keyf x) x e h1 with h2 | h2
      · exact Or.inl ⟨x, List.mem_cons_self x rest, h2⟩
      · exact Or.inr h2

theorem mem_buildMap {α : Type} (keyf : α → String) (xs : List α)
    (e : String × α) (h : e ∈ buildMap keyf xs) : ∃ x ∈ xs, e = (keyf x, x) := by
  rcases mem_foldl_insert keyf xs [] e h with h1 | h1
  · exact h1
  · simp at h1

theorem buildMap_entry_key {α : Type} (keyf : α → String) (xs : List α)
    (e : String × α) (h : e ∈ buildMap keyf xs) : keyf e.2 = e.1 := by
  rcases mem_buildMap keyf xs e h with ⟨x, _, hx⟩
  rw [hx]

theorem keys_mapInsert_nodup {α : Type} (m : List (String × α)) (k : String)
    (v : α) (h : (m.map (fun e => e.1)).Nodup) :
    ((mapInsert m k v).map (fun e => e.1)).Nodup := by
  unfold mapInsert
  by_cases hany : m.any (fun e => decide (e.1 = k)) = true
  · rw [if_pos hany]
    have : (m.map (fun e => if e.1 = k then (k, v) else e)).map (fun e => e.1) =
        m.map (fun e => e.1) := by
      rw [List.map_map]
      apply List.map_congr_left
      intro e _
      by_cases hk : e.1 = k
      · simp [hk]
      · simp [hk]
    rw [this]
    exact h
  · rw [if_neg hany, List.map_append]
    simp only [List.map_cons, List.map_nil]
    rw [List.nodup_append]
    refine ⟨h, List.nodup_singleton k, ?_⟩
    intro a ha hb
    rw [List.mem_singleton] at hb
    subst hb
    rcases List.mem_map.mp ha with ⟨e, he, hk⟩
    exact hany ((any_key_iff m a).mpr ⟨e, he, hk⟩)

theorem foldl_insert_keys_nodup {α : Type} (keyf : α → String) (xs : List α)
    (m0 : List (String × α)) (h : (m0.map (fun e => e.1)).Nodup) :
    ((xs.foldl (fun m x => mapInsert m (keyf x) x) m0).map (fun e => e.1)).Nodup := by
  induction xs generalizing m0 with
  | nil => exact h
  | cons x rest ih =>
    exact ih (mapInsert m0 (keyf x) x) (keys_mapInsert_nodup m0 (keyf x) x h)

theorem buildMap_keys_nodup {α : Type} (keyf : α → String) (xs : List α) :
    ((buildMap keyf xs).map (fun e => e.1)).Nodup :=
  foldl_insert_keys_nodup keyf xs [] (by simp)

theorem mapLookup_isSome_iff {α : Type} (m : List (String × α)) (k : String) :
    (mapLookup m k).isSome = true ↔ ∃ e ∈ m, e.1 = k := by
  unfold mapLookup
  cases hf : m.find? (fun e => decide (e.1 = k)) with
  | none =>
    simp only [Option.map_none', Option.isSome_none, Bool.false_eq_true, false_iff]
    rw [List.find?_eq_none] at hf
    rintro ⟨e, he, hk⟩
    exact hf e he (by simp [hk])
  | some e =>
    simp only [Option.map_some', Option.isSome_some, true_iff]
    have hk := List.find?_some hf
    exact ⟨e, List.mem_of_find?_eq_some hf, by simpa using hk⟩

theorem mapLookup_eq_some_of_mem {α : Type} (m : List (String × α))
    (e : String × α) (hm : e ∈ m) (hnd : (m.map (fun e => e.1)).Nodup) :
    mapLookup m e.1 = some e.2 := by
  induction m with
  | nil => simp at hm
  | cons e' rest ih =>
    rcases List.mem_cons.mp hm with h1 | h1
    · subst h1
      unfold mapLookup
      rw [List.find?_cons_of_pos]
      · rfl
      · simp
    · have hne : e'.1 ≠ e.1 := by
        intro hk
        rw [List.map_cons, List.nodup_cons] at hnd
        exact hnd.1 (hk ▸ List.mem_map.mpr ⟨e, h1, rfl⟩)
      unfold mapLookup
      rw [List.find?_cons_of_neg]
      · exact ih h1 (by rw [List.map_cons, List.nodup_cons] at hnd; exact hnd.2)
      · simp [hne]

theorem mem_of_mapLookup_eq_some {α : Type} (m : List (String × α))
    (k : String) (v : α) (h : mapLookup m k = some v) : (k, v) ∈ m := by
  unfold mapLookup at h
  rcases Option.map_eq_some'.mp h with ⟨e, he, hv⟩
  have hk : e.1 = k := by
    have := List.find?_some he
    simpa using this
  have hm := List.mem_of_find?_eq_some he
  have : e = (k, v) := by
    cases e
    simp at hk hv
    simp [hk, hv]
  exact this ▸ hm

theorem foldl_insert_lookup {α : Type} (keyf : α → String) (xs : List α)
    (m0 : List (String × α)) (k : String) :
    mapLookup (xs.foldl (fun m x => mapInsert m (keyf x) x) m0) k =
      match (xs.filter (fun x => decide (keyf x = k))).getLast? with
      | some x => some x
      | none => mapLookup m0 k := by
  induction xs generalizing m0 with
  | nil => simp
  | cons x rest ih =>
    rw [List.foldl_cons, ih (mapInsert m0 (keyf x) x)]
    by_cases hx : keyf x = k
    · rw [List.filter_cons_of_pos (by simp [hx])]
      cases hf : rest.filter (fun x => decide (keyf x = k)) with
      | nil =>
        simp only [List.getLast?_nil, List.getLast?_singleton]
        rw [← hx]
        exact mapLookup_insert_self m0 (keyf x) x
      | cons z zs =>
        rw [List.getLast?_cons_cons]
        cases hy : (z :: zs).getLast? with
        | none =>
          rw [List.getLast?_eq_none_iff] at hy
          simp at hy
        | some y => rfl
    · rw [List.filter_cons_of_neg (by simp [hx])]
      cases hrest : (rest.filter (fun x => decide (keyf x = k))).getLast? with
      | some y => rfl
      | none =>
        exact mapLookup_insert_ne m0 (keyf x) k x (fun h => hx h.symm)

theorem buildMap_lookup {α : Type} (keyf : α → String) (xs : List α)
    (k : String) :
    mapLookup (buildMap keyf xs) k =
      (xs.filter (fun x => decide (keyf x = k))).getLast? := by
  unfold buildMap
  rw [foldl_insert_lookup]
  cases h : (xs.filter (fun x => decide (keyf x = k))).getLast? with
  | some x => rfl
  | none => simp [mapLookup]

/-! ## C5: diffing a schema against itself -/

theorem diffMatchedOps_self (name key : String) (op : Operation) (ts : Nat) :
    diffMatchedOps name key op op ts = [] := by
  unfold diffMatchedOps
  cases op.Reply <;> simp

theorem compareServiceOperations_self (svc : Service) (ts : Nat) :
    compareServiceOperations svc svc ts = [] := by
  simp only [compareServiceOperations]
  have hnd := buildMap_keys_nodup operationKey svc.Operation
  apply List.append_eq_nil.mpr
  constructor
  · rw [List.filterMap_eq_nil_iff]
    intro e he
    rw [if_pos ((mapLookup_isSome_iff _ _).mpr ⟨e, he, rfl⟩)]
  · rw [List.flatMap_eq_nil_iff]
    intro e he
    rw [mapLookup_eq_some_of_mem _ e he hnd]
    exact diffMatchedOps_self svc.Name e.1 e.2 ts

/-- C5: `CompareSchemas(S, S)` — comparing any schema against itself —
returns a changelog whose change list is empty. -/
theorem compareSchemas_self_empty (s : Schema) (now : Nat) :
    (CompareSchemas s s now).Changes = [] := by
  simp only [CompareSchemas]
  have hnd := buildMap_keys_nodup Service.Name s.Services
  apply List.append_eq_nil.mpr
  constructor
  · rw [List.filterMap_eq_nil_iff]
    intro e he
    rw [if_pos ((mapLookup_isSome_iff _ _).mpr ⟨e, he, rfl⟩)]
  · rw [List.flatMap_eq_nil_iff]
    intro e he
    rw [mapLookup_eq_some_of_mem _ e he hnd]
    exact compareServiceOperations_self e.2 now

/-! ## C6: the neighbor view excludes the main service and deduplicates -/

theorem serviceNeighborsStep_cases (main : Service) (sCh rCh : List String)
    (acc : List Service × List String) (svc : Service) :
    serviceNeighborsStep main sCh rCh acc svc = acc ∨
      (svc.Name ≠ main.Name ∧ svc.Name ∉ acc.2 ∧
        serviceNeighborsStep main sCh rCh acc svc =
          (acc.1 ++ [svc], acc.2 ++ [svc.Name])) := by
  unfold serviceNeighborsStep
  by_cases hm : svc.Name = main.Name
  · rw [if_pos hm]
    exact Or.inl rfl
  · rw [if_neg hm]
    split
    · rename_i h
      right
      refine ⟨hm, ?_, rfl⟩
      have hb := (Bool.and_eq_true _ _ |>.mp h).2
      simpa using hb
    · exact Or.inl rfl

theorem serviceNeighbors_fold (main : Service) (sCh rCh : List String)
    (services : List Service) (acc : List Service × List String)
    (h1 : ∀ svc ∈ acc.1, svc.Name ≠ main.Name)
    (h2 : acc.1.map Service.Name = acc.2) (h3 : acc.2.Nodup) :
    (∀ svc ∈ (services.foldl (serviceNeighborsStep main sCh rCh) acc).1,
        svc.Name ≠ main.Name) ∧
      (services.foldl (serviceNeighborsStep main sCh rCh) acc).1.map
          Service.Name =
        (services.foldl (serviceNeighborsStep main sCh rCh) acc).2 ∧
      (services.foldl (serviceNeighborsStep main sCh rCh) acc).2.Nodup := by
  induction services generalizing acc with
  | nil => exact ⟨h1, h2, h3⟩
  | cons svc rest ih =>
    rw [List.foldl_cons]
    rcases serviceNeighborsStep_cases main sCh rCh acc svc with hstep | ⟨hm, hmem, hstep⟩
    · rw [hstep]
      exact ih acc h1 h2 h3
    · rw [hstep]
      apply ih
      · intro x hx
        rcases List.mem_append.mp hx with hx1 | hx1
        · exact h1 x hx1
        · rw [List.mem_singleton.mp hx1]
          exact hm
      · simp [h2]
      · rw [List.nodup_append]
        refine ⟨h3, List.nodup_singleton _, ?_⟩
        intro a ha hb
        rw [List.mem_singleton] at hb
        subst hb
        exact hmem ha

/-- C6: for every schema and service-name parameter, the neighbor list of
`prepareServiceServicesPayload` never contains the main service itself and
contains no duplicate service names. -/
theorem serviceServices_neighbors_sound (s : Schema) (serviceName : String) :
    (∀ svc ∈ (prepareServiceServicesPayload s serviceName).NeighborServices,
        svc.Name ≠ (prepareServiceServicesPayload s serviceName).MainService.Name) ∧
      ((prepareServiceServicesPayload s serviceName).NeighborServices.map
        Service.Name).Nodup := by
  simp only [prepareServiceServicesPayload]
  have h := serviceNeighbors_fold (resolveMainService s serviceName)
    ((resolveMainService s serviceName).Operation.filterMap (fun op =>
      if op.Action = ActionSend then some op.Channel.Name else none))
    ((resolveMainService s serviceName).Operation.filterMap (fun op =>
      if op.Action = ActionReceive then some op.Channel.Name else none))
    s.Services ([], []) (by simp) (by simp) (by simp)
  refine ⟨h.1, ?_⟩
  rw [h.2.1]
  exact h.2.2

/-! ## C8: unsupported format modes -/

/-- C8: for a mode outside the four supported ones, `FormatSchema` returns
the unsupported-format-mode error naming the given mode and the supported
set (and no formatted payload); for a supported mode it never returns that
error. -/
theorem formatSchema_mode_errors (s : Schema) (opts : FormatOptions) :
    (opts.Mode ∉ supportedFormatModes →
      FormatSchema s opts = Except.error
        (MFError.unsupportedFormatMode opts.Mode supportedFormatModes)) ∧
    (opts.Mode ∈ supportedFormatModes →
      ∀ given expected, FormatSchema s opts ≠ Except.error
        (MFError.unsupportedFormatMode given expected)) := by
  constructor
  · intro h
    simp only [supportedFormatModes, List.mem_cons, List.not_mem_nil, or_false,
      not_or] at h
    obtain ⟨h1, h2, h3, h4⟩ := h
    unfold FormatSchema
    rw [if_neg h3, if_neg h1, if_neg h2, if_neg h4]
  · intro h given expected
    simp only [supportedFormatModes, List.mem_cons, List.not_mem_nil,
      or_false] at h
    unfold FormatSchema
    rcases h with h | h | h | h
    · rw [h, if_neg (by decide), if_pos rfl]
      simp
    · rw [h, if_neg (by decide), if_neg (by decide), if_pos rfl]
      simp
    · rw [h, if_pos rfl]
      simp
    · rw [h, if_neg (by decide), if_neg (by decide), if_neg (by decide),
        if_pos rfl]
      simp

/-- Witness for C8 at concrete inputs: the mode `"bogus_mode"` is rejected
with the expected error value, and the supported mode `"context_services"`
never produces that error. -/
theorem formatSchema_mode_errors_witness :
    (FormatSchema ⟨[]⟩ ⟨"bogus_mode", "", "", false⟩ =
      Except.error
        (MFError.unsupportedFormatMode "bogus_mode" supportedFormatModes)) ∧
    ∀ given expected,
      FormatSchema ⟨[]⟩ ⟨"context_services", "", "", false⟩ ≠
        Except.error (MFError.unsupportedFormatMode given expected) :=
  ⟨(formatSchema_mode_errors ⟨[]⟩ ⟨"bogus_mode", "", "", false⟩).1 (by decide),
   (formatSchema_mode_errors ⟨[]⟩ ⟨"context_services", "", "", false⟩).2
     (by decide)⟩

/-! ## C1: channel-services senders and receivers -/

theorem messageStep_Senders (p : ChannelServicesPayload) (op : Operation) :
    (channelServicesMessageStep p op).Senders = p.Senders := by
  unfold channelServicesMessageStep
  split
  · rfl
  · split <;> rfl

theorem messageStep_Receivers (p : ChannelServicesPayload) (op : Operation) :
    (channelServicesMessageStep p op).Receivers = p.Receivers := by
  unfold channelServicesMessageStep
  split
  · rfl
  · split <;> rfl

theorem replyStep_Senders (p : ChannelServicesPayload) (op : Operation) :
    (channelServicesReplyStep p op).Senders = p.Senders := by
  unfold channelServicesReplyStep
  split
  · rfl
  · split
    · rfl
    · split
      · rfl
      · split <;> rfl

theorem replyStep_Receivers (p : ChannelServicesPayload) (op : Operation) :
    (channelServicesReplyStep p op).Receivers = p.Receivers := by
  unfold channelServicesReplyStep
  split
  · rfl
  · split
    · rfl
    · split
      · rfl
      · split <;> rfl

theorem actionStep_Senders (nm : String) (p : ChannelServicesPayload)
    (op : Operation) :
    (channelServicesActionStep nm p op).Senders =
      if op.Action = ActionSend then p.Senders ++ [nm] else p.Senders := by
  unfold channelServicesActionStep
  by_cases h : op.Action = ActionSend
  · rw [if_pos h, if_pos h]
  · rw [if_neg h, if_neg h]
    by_cases h2 : op.Action = ActionReceive
    · rw [if_pos h2]
    · rw [if_neg h2]

theorem actionStep_Receivers (nm : String) (p : ChannelServicesPayload)
    (op : Operation) :
    (channelServicesActionStep nm p op).Receivers =
      if op.Action = ActionReceive ∧ op.Action ≠ ActionSend then
        p.Receivers ++ [nm]
      else p.Receivers := by
  unfold channelServicesActionStep
  by_cases h : op.Action = ActionSend
  · rw [if_pos h, if_neg (fun hh => hh.2 h)]
  · rw [if_neg h]
    by_cases h2 : op.Action = ActionReceive
    · rw [if_pos h2, if_pos ⟨h2, h⟩]
    · rw [if_neg h2, if_neg (fun hh => h2 hh.1)]

theorem channelServicesStep_Senders (ch nm : String)
    (p : ChannelServicesPayload) (op : Operation) :
    (channelServicesStep ch nm p op).Senders =
      if op.Channel.Name = ch ∧ op.Action = ActionSend then p.Senders ++ [nm]
      else p.Senders := by
  unfold channelServicesStep
  by_cases h1 : op.Channel.Name = ch
  · rw [if_pos h1, replyStep_Senders, messageStep_Senders, actionStep_Senders]
    by_cases h2 : op.Action = ActionSend
    · rw [if_pos h2, if_pos ⟨h1, h2⟩]
    · rw [if_neg h2, if_neg (fun hh => h2 hh.2)]
  · rw [if_neg h1, if_neg (fun hh => h1 hh.1)]

theorem channelServicesStep_Receivers (ch nm : String)
    (p : ChannelServicesPayload) (op : Operation) :
    (channelServicesStep ch nm p op).Receivers =
      if op.Channel.Name = ch ∧ op.Action = ActionReceive ∧
          op.Action ≠ ActionSend then
        p.Receivers ++ [nm]
      else p.Receivers := by
  unfold channelServicesStep
  by_cases h1 : op.Channel.Name = ch
  · rw [if_pos h1, replyStep_Receivers, messageStep_Receivers,
      actionStep_Receivers]
    by_cases h2 : op.Action = ActionReceive ∧ op.Action ≠ ActionSend
    · rw [if_pos h2, if_pos ⟨h1, h2⟩]
    · rw [if_neg h2, if_neg (fun hh => h2 hh.2)]
  · rw [if_neg h1, if_neg (fun hh => h1 hh.1)]

theorem ops_fold_Senders (ch nm : String) (ops : List Operation)
    (p : ChannelServicesPayload) :
    (ops.foldl (channelServicesStep ch nm) p).Senders =
      p.Senders ++ ops.filterMap (fun op =>
        if op.Channel.Name = ch ∧ op.Action = ActionSend then some nm
        else none) := by
  induction ops generalizing p with
  | nil => simp
  | cons op rest ih =>
    rw [List.foldl_cons, ih, channelServicesStep_Senders]
    by_cases h : op.Channel.Name = ch ∧ op.Action = ActionSend
    · rw [if_pos h, List.filterMap_cons, if_pos h]
      simp
    · rw [if_neg h, List.filterMap_cons, if_neg h]

theorem ops_fold_Receivers (ch nm : String) (ops : List Operation)
    (p : ChannelServicesPayload) :
    (ops.foldl (channelServicesStep ch nm) p).Receivers =
      p.Receivers ++ ops.filterMap (fun op =>
        if op.Channel.Name = ch ∧ op.Action = ActionReceive ∧
            op.Action ≠ ActionSend then
          some nm
        else none) := by
  induction ops generalizing p with
  | nil => simp
  | cons op rest ih =>
    rw [List.foldl_cons, ih, channelServicesStep_Receivers]
    by_cases h : op.Channel.Name = ch ∧ op.Action = ActionReceive ∧
        op.Action ≠ ActionSend
    · rw [if_pos h, List.filterMap_cons, if_pos h]
      simp
    · rw [if_neg h, List.filterMap_cons, if_neg h]

theorem services_fold_Senders (ch : String) (services : List Service)
    (p : ChannelServicesPayload) :
    (services.foldl
        (fun q svc => svc.Operation.foldl (channelServicesStep ch svc.Name) q)
        p).Senders =
      p.Senders ++ services.flatMap (fun svc =>
        svc.Operation.filterMap (fun op =>
          if op.Channel.Name = ch ∧ op.Action = ActionSend then some svc.Name
          else none)) := by
  induction services generalizing p with
  | nil => simp
  | cons svc rest ih =>
    rw [List.foldl_cons, ih, ops_fold_Senders, List.flatMap_cons,
      List.append_assoc]

theorem services_fold_Receivers (ch : String) (services : List Service)
    (p : ChannelServicesPayload) :
    (services.foldl
        (fun q svc => svc.Operation.foldl (channelServicesStep ch svc.Name) q)
        p).Receivers =
      p.Receivers ++ services.flatMap (fun svc =>
        svc.Operation.filterMap (fun op =>
          if op.Channel.Name = ch ∧ op.Action = ActionReceive ∧
              op.Action ≠ ActionSend then
            some svc.Name
          else none)) := by
  induction services generalizing p with
  | nil => simp
  | cons svc rest ih =>
    rw [List.foldl_cons, ih, ops_fold_Receivers, List.flatMap_cons,
      List.append_assoc]

/-- C1 (amended): the channel-services projection matches operations on the
primary channel name only (reply channel names are not consulted): a name
is in Senders iff some so-named service has a `send` operation whose
primary channel equals the given channel, and likewise for Receivers with
`receive`. -/
theorem channelServices_senders_receivers (s : Schema) (channel : String)
    (omitPayloads : Bool) (name : String) :
    (name ∈ (prepareChannelServicesPayload s channel omitPayloads).Senders ↔
      ∃ svc ∈ s.Services, svc.Name = name ∧ ∃ op ∈ svc.Operation,
        op.Action = ActionSend ∧ op.Channel.Name = channel) ∧
    (name ∈ (prepareChannelServicesPayload s channel omitPayloads).Receivers ↔
      ∃ svc ∈ s.Services, svc.Name = name ∧ ∃ op ∈ svc.Operation,
        op.Action = ActionReceive ∧ op.Channel.Name = channel) := by
  unfold prepareChannelServicesPayload
  constructor
  · rw [services_fold_Senders]
    simp only [List.nil_append, List.mem_flatMap, List.mem_filterMap]
    constructor
    · rintro ⟨svc, hsvc, op, hop, hif⟩
      by_cases hc : op.Channel.Name = channel ∧ op.Action = ActionSend
      · rw [if_pos hc] at hif
        exact ⟨svc, hsvc, Option.some.inj hif, op, hop, hc.2, hc.1⟩
      · rw [if_neg hc] at hif
        exact absurd hif (by simp)
    · rintro ⟨svc, hsvc, hname, op, hop, hact, hch⟩
      exact ⟨svc, hsvc, op, hop, by rw [if_pos ⟨hch, hact⟩, hname]⟩
  · rw [services_fold_Receivers]
    simp only [List.nil_append, List.mem_flatMap, List.mem_filterMap]
    constructor
    · rintro ⟨svc, hsvc, op, hop, hif⟩
      by_cases hc : op.Channel.Name = channel ∧ op.Action = ActionReceive ∧
          op.Action ≠ ActionSend
      · rw [if_pos hc] at hif
        exact ⟨svc, hsvc, Option.some.inj hif, op, hop, hc.2.1, hc.1⟩
      · rw [if_neg hc] at hif
        exact absurd hif (by simp)
    · rintro ⟨svc, hsvc, hname, op, hop, hact, hch⟩
      have hne : op.Action ≠ ActionSend := by
        rw [hact]
        decide
      exact ⟨svc, hsvc, op, hop, by rw [if_pos ⟨hch, hact, hne⟩, hname]⟩

/-- C1 witness at a concrete input: service `"S"` sends on channel `"c"`,
so `"S"` is reported as a sender of `"c"`. -/
theorem channelServices_senders_receivers_witness :
    "S" ∈ (prepareChannelServicesPayload
      ⟨[⟨"S", "", [⟨ActionSend, ⟨"c", []⟩, none⟩]⟩]⟩ "c" false).Senders :=
  (channelServices_senders_receivers
      ⟨[⟨"S", "", [⟨ActionSend, ⟨"c", []⟩, none⟩]⟩]⟩ "c" false "S").1.mpr
    ⟨⟨"S", "", [⟨ActionSend, ⟨"c", []⟩, none⟩]⟩, List.mem_singleton.mpr rfl, rfl,
      ⟨ActionSend, ⟨"c", []⟩, none⟩, List.mem_singleton.mpr rfl, rfl, rfl⟩

/-- The concrete schema refuting the reply-channel part of C1: service
`"A"` has a `send` operation with primary channel `"a"` and reply channel
`"b"`. -/
def c1CounterSchema : Schema :=
  ⟨[⟨"A", "", [⟨ActionSend, ⟨"a", []⟩, some ⟨"b", []⟩⟩]⟩]⟩

/-- C1 counterexample: service `"A"` has a `send` operation whose reply
channel name is `"b"` (and primary channel `"a"`), yet the channel-services
view for channel `"b"` reports no senders — operations are not matched on
the reply channel name, contradicting the claim. -/
theorem channelServices_reply_not_scanned :
    (∃ svc ∈ c1CounterSchema.Services, svc.Name = "A" ∧
      ∃ op ∈ svc.Operation, op.Action = ActionSend ∧
        op.Reply.map Channel.Name = some "b" ∧ op.Channel.Name ≠ "b") ∧
    (prepareChannelServicesPayload c1CounterSchema "b" false).Senders = [] := by
  constructor
  · exact ⟨⟨"A", "", [⟨ActionSend, ⟨"a", []⟩, some ⟨"b", []⟩⟩]⟩,
      List.mem_singleton.mpr rfl, rfl,
      ⟨ActionSend, ⟨"a", []⟩, some ⟨"b", []⟩⟩, List.mem_singleton.mpr rfl, rfl,
      rfl, by decide⟩
  · rfl

/-! ## C7: Schema.Sort ordering -/

/-- The claim's operation order on message lists: compare first message
names when both operations have messages; otherwise the operation with
fewer messages sorts last. -/
def opMsgLE : List Message → List Message → Prop
  | m1 :: _, m2 :: _ => m1.Name ≤ m2.Name
  | ms1, ms2 => ms2.length ≤ ms1.length

/-- The claim's operation order: by action, then channel name, then first
primary message name (fewer messages last when names cannot be compared). -/
def opSpecLE (a b : Operation) : Prop :=
  a.Action < b.Action ∨
    (a.Action = b.Action ∧
      (a.Channel.Name < b.Channel.Name ∨
        (a.Channel.Name = b.Channel.Name ∧
          opMsgLE a.Channel.Messages b.Channel.Messages)))

theorem goOpLess_false_iff (a b : Operation) :
    (goOpLess b a = false) ↔ opSpecLE a b := by
  unfold goOpLess opSpecLE
  by_cases hA : b.Action = a.Action
  · rw [if_neg (by simp [hA])]
    by_cases hC : b.Channel.Name = a.Channel.Name
    · rw [if_neg (by simp [hC])]
      have hAd : ¬(a.Action < b.Action) := by rw [hA]; exact lt_irrefl _
      have hCd : ¬(a.Channel.Name < b.Channel.Name) := by
        rw [hC]; exact lt_irrefl _
      constructor
      · intro h
        refine Or.inr ⟨hA.symm, Or.inr ⟨hC.symm, ?_⟩⟩
        cases ha : a.Channel.Messages with
        | nil =>
          cases hb : b.Channel.Messages with
          | nil =>
            rw [ha, hb] at h
            unfold opMsgLE
            simp
          | cons m2 ms2 =>
            rw [ha, hb] at h
            unfold opMsgLE
            simp only [decide_eq_false_iff_not, not_lt] at h
            simp at h
        | cons m1 ms1 =>
          cases hb : b.Channel.Messages with
          | nil =>
            rw [ha, hb] at h
            unfold opMsgLE
            simp only [decide_eq_false_iff_not, not_lt] at h
            simp
          | cons m2 ms2 =>
            rw [ha, hb] at h
            unfold opMsgLE
            rw [strLt_false_iff] at h
            exact h
      · intro h
        rcases h with h | ⟨_, h⟩
        · exact absurd h hAd
        rcases h with h | ⟨_, h⟩
        · exact absurd h hCd
        cases ha : a.Channel.Messages with
        | nil =>
          cases hb : b.Channel.Messages with
          | nil => simp
          | cons m2 ms2 =>
            rw [ha, hb] at h
            unfold opMsgLE at h
            simp at h
        | cons m1 ms1 =>
          cases hb : b.Channel.Messages with
          | nil =>
            rw [ha, hb] at h
            unfold opMsgLE at h
            simp only [decide_eq_false_iff_not, not_lt]
            simp
          | cons m2 ms2 =>
            rw [ha, hb] at h
            unfold opMsgLE at h
            rw [strLt_false_iff]
            exact h
    · rw [if_pos (by simp [hC]), strLt_false_iff]
      constructor
      · intro h
        exact Or.inr ⟨hA.symm, Or.inl (lt_of_le_of_ne h (fun hh => hC hh.symm))⟩
      · intro h
        rcases h with h | ⟨_, h⟩
        · rw [hA] at h
          exact absurd h (lt_irrefl _)
        rcases h with h | ⟨h, _⟩
        · exact le_of_lt h
        · exact absurd h (fun hh => hC hh.symm)
  · rw [if_pos (by simp [hA]), strLt_false_iff]
    constructor
    · intro h
      exact Or.inl (lt_of_le_of_ne h (fun hh => hA hh.symm))
    · intro h
      rcases h with h | ⟨h, _⟩
      · exact le_of_lt h
      · exact absurd h (fun hh => hA hh.symm)

theorem opMsgLE_total (xs ys : List Message) : opMsgLE xs ys ∨ opMsgLE ys xs := by
  cases xs with
  | nil =>
    cases ys with
    | nil => left; unfold opMsgLE; simp
    | cons m ms => right; unfold opMsgLE; simp
  | cons m1 ms1 =>
    cases ys with
    | nil => left; unfold opMsgLE; simp
    | cons m2 ms2 =>
      unfold opMsgLE
      exact le_total m1.Name m2.Name

theorem opMsgLE_trans (xs ys zs : List Message) (h1 : opMsgLE xs ys)
    (h2 : opMsgLE ys zs) : opMsgLE xs zs := by
  cases xs with
  | nil =>
    cases ys with
    | nil =>
      cases zs with
      | nil => exact h2
      | cons m3 ms3 => unfold opMsgLE at h2; simp at h2
    | cons m2 ms2 => unfold opMsgLE at h1; simp at h1
  | cons m1 ms1 =>
    cases ys with
    | nil =>
      cases zs with
      | nil => unfold opMsgLE; simp
      | cons m3 ms3 => unfold opMsgLE at h2; simp at h2
    | cons m2 ms2 =>
      cases zs with
      | nil => unfold opMsgLE; simp
      | cons m3 ms3 =>
        unfold opMsgLE at h1 h2 ⊢
        exact le_trans h1 h2

theorem opSpecLE_total (a b : Operation) : opSpecLE a b ∨ opSpecLE b a := by
  unfold opSpecLE
  rcases lt_trichotomy a.Action b.Action with h | h | h
  · exact Or.inl (Or.inl h)
  · rcases lt_trichotomy a.Channel.Name b.Channel.Name with h2 | h2 | h2
    · exact Or.inl (Or.inr ⟨h, Or.inl h2⟩)
    · rcases opMsgLE_total a.Channel.Messages b.Channel.Messages with h3 | h3
      · exact Or.inl (Or.inr ⟨h, Or.inr ⟨h2, h3⟩⟩)
      · exact Or.inr (Or.inr ⟨h.symm, Or.inr ⟨h2.symm, h3⟩⟩)
    · exact Or.inr (Or.inr ⟨h.symm, Or.inl h2⟩)
  · exact Or.inr (Or.inl h)

theorem opSpecLE_trans (a b c : Operation) (h1 : opSpecLE a b)
    (h2 : opSpecLE b c) : opSpecLE a c := by
  unfold opSpecLE at h1 h2 ⊢
  rcases h1 with h1 | ⟨h1a, h1r⟩
  · rcases h2 with h2 | ⟨h2a, _⟩
    · exact Or.inl (lt_trans h1 h2)
    · exact Or.inl (h2a ▸ h1)
  · rcases h2 with h2 | ⟨h2a, h2r⟩
    · exact Or.inl (h1a ▸ h2)
    · refine Or.inr ⟨h1a.trans h2a, ?_⟩
      rcases h1r with h1r | ⟨h1c, h1m⟩
      · rcases h2r with h2r | ⟨h2c, _⟩
        · exact Or.inl (lt_trans h1r h2r)
        · exact Or.inl (h2c ▸ h1r)
      · rcases h2r with h2r | ⟨h2c, h2m⟩
        · exact Or.inl (h1c ▸ h2r)
        · exact Or.inr ⟨h1c.trans h2c,
            opMsgLE_trans _ _ _ h1m h2m⟩

theorem opRel_total (a b : Operation) :
    (goOpLess b a = false) ∨ (goOpLess a b = false) := by
  rcases opSpecLE_total a b with h | h
  · exact Or.inl ((goOpLess_false_iff a b).mpr h)
  · exact Or.inr ((goOpLess_false_iff b a).mpr h)

theorem opRel_trans (a b c : Operation) (h1 : goOpLess b a = false)
    (h2 : goOpLess c b = false) : goOpLess c a = false :=
  (goOpLess_false_iff a c).mpr
    (opSpecLE_trans a b c ((goOpLess_false_iff a b).mp h1)
      ((goOpLess_false_iff b c).mp h2))

theorem svcRel_total (a b : Service) :
    (goSvcLess b a = false) ∨ (goSvcLess a b = false) := by
  unfold goSvcLess
  rw [strLt_false_iff, strLt_false_iff]
  exact le_total a.Name b.Name

theorem svcRel_trans (a b c : Service) (h1 : goSvcLess b a = false)
    (h2 : goSvcLess c b = false) : goSvcLess c a = false := by
  unfold goSvcLess at h1 h2 ⊢
  rw [strLt_false_iff] at h1 h2 ⊢
  exact le_trans h1 h2

/-- C7: after `Schema.Sort`, the services are ordered by name, and within
each service the operations are ordered first by action, then by channel
name, then by the first primary message name when both operations have
messages; an operation with fewer messages sorts after one with more
messages when message names cannot be compared. -/
theorem schemaSort_sorted (s : Schema) :
    ((Schema.Sort s).Services.map Service.Name).Sorted (· ≤ ·) ∧
      ∀ svc ∈ (Schema.Sort s).Services, svc.Operation.Pairwise opSpecLE := by
  constructor
  · unfold Schema.Sort
    have hs := @List.sorted_insertionSort Service
      (fun a b => goSvcLess b a = false) (fun a b => instDecidableEqBool _ _)
      ⟨svcRel_total⟩ ⟨svcRel_trans⟩
      (s.Services.map (fun svc =>
        { svc with
          Operation := svc.Operation.insertionSort
            (fun a b => goOpLess b a = false) }))
    rw [List.Sorted, List.pairwise_map]
    refine hs.imp ?_
    intro a b hab
    unfold goSvcLess at hab
    rw [strLt_false_iff] at hab
    exact hab
  · intro svc hsvc
    unfold Schema.Sort at hsvc
    simp only [Schema.mk.injEq] at hsvc
    have hperm := List.perm_insertionSort
      (fun a b : Service => goSvcLess b a = false)
      (s.Services.map (fun svc =>
        { svc with
          Operation := svc.Operation.insertionSort
            (fun a b => goOpLess b a = false) }))
    have hmem := hperm.mem_iff.mp hsvc
    rcases List.mem_map.mp hmem with ⟨svc0, _, heq⟩
    have hops : svc.Operation = svc0.Operation.insertionSort
        (fun a b => goOpLess b a = false) := by
      rw [← heq]
    rw [hops]
    have hs := @List.sorted_insertionSort Operation
      (fun a b => goOpLess b a = false) (fun a b => instDecidableEqBool _ _)
      ⟨opRel_total⟩ ⟨opRel_trans⟩ svc0.Operation
    exact hs.imp (fun hab => (goOpLess_false_iff _ _).mp hab)

/-! ## C9: services only in the new schema -/

theorem diffMatchedOps_category (nm k : String) (o1 o2 : Operation) (ts : Nat)
    (c : Change) (h : c ∈ diffMatchedOps nm k o1 o2 ts) :
    c.Category = "channel" ∨ c.Category = "message" := by
  unfold diffMatchedOps at h
  rcases List.mem_append.mp h with h1 | h1
  · split at h1
    · rw [List.mem_singleton.mp h1]
      exact Or.inr rfl
    · simp at h1
  · split at h1
    · split at h1
      · rw [List.mem_singleton.mp h1]
        exact Or.inr rfl
      · simp at h1
    · rw [List.mem_singleton.mp h1]
      exact Or.inl rfl
    · rw [List.mem_singleton.mp h1]
      exact Or.inl rfl
    · simp at h1

theorem compareServiceOperations_category (o nw : Service) (ts : Nat)
    (c : Change) (h : c ∈ compareServiceOperations o nw ts) :
    c.Category = "channel" ∨ c.Category = "message" := by
  simp only [compareServiceOperations] at h
  rcases List.mem_append.mp h with h1 | h1
  · rcases List.mem_filterMap.mp h1 with ⟨e, _, hfe⟩
    split at hfe
    · simp at hfe
    · rw [← Option.some.inj hfe]
      exact Or.inl rfl
  · rcases List.mem_flatMap.mp h1 with ⟨e, _, hce⟩
    split at hce
    · rw [List.mem_singleton.mp hce]
      exact Or.inl rfl
    · exact diffMatchedOps_category _ _ _ _ _ _ hce

theorem countP_filterMap_single {β : Type} (m : List (String × β))
    (f : String × β → Option Change) (pred : Change → Bool) (n : String)
    (hnd : (m.map (fun e => e.1)).Nodup)
    (hmem : ∃ e ∈ m, e.1 = n)
    (hpos : ∀ e ∈ m, e.1 = n → ∃ c, f e = some c ∧ pred c = true)
    (hneg : ∀ e ∈ m, e.1 ≠ n → ∀ c, f e = some c → pred c = false) :
    (m.filterMap f).countP pred = 1 := by
  induction m with
  | nil => simp at hmem
  | cons e rest ih =>
    rw [List.filterMap_cons]
    rw [List.map_cons, List.nodup_cons] at hnd
    by_cases he : e.1 = n
    · obtain ⟨c, hc, hpc⟩ := hpos e (List.mem_cons_self e rest) he
      rw [hc]
      have hrest0 : (rest.filterMap f).countP pred = 0 := by
        rw [List.countP_eq_zero]
        intro c' hc'
        rcases List.mem_filterMap.mp hc' with ⟨e', he', hfe'⟩
        have hne : e'.1 ≠ n := by
          intro hh
          exact hnd.1 (he ▸ hh ▸ List.mem_map.mpr ⟨e', he', rfl⟩)
        simp [hneg e' (List.mem_cons_of_mem e he') hne c' hfe']
      rw [List.countP_cons, hrest0, if_pos hpc]
    · have hmem' : ∃ e ∈ rest, e.1 = n := by
        rcases hmem with ⟨e', he', hk⟩
        rcases List.mem_cons.mp he' with hh | hh
        · exact absurd (hh ▸ hk) he
        · exact ⟨e', hh, hk⟩
      have hpos' : ∀ e ∈ rest, e.1 = n → ∃ c, f e = some c ∧ pred c = true :=
        fun e' he' => hpos e' (List.mem_cons_of_mem e he')
      have hneg' : ∀ e ∈ rest, e.1 ≠ n → ∀ c, f e = some c → pred c = false :=
        fun e' he' => hneg e' (List.mem_cons_of_mem e he')
      cases hfe : f e with
      | none => exact ih hnd.2 hmem' hpos' hneg'
      | some c =>
        rw [List.countP_cons, hneg e (List.mem_cons_self e rest) he c hfe]
        simp only [Bool.false_eq_true, if_false, Nat.add_zero]
        exact ih hnd.2 hmem' hpos' hneg'

/-- C9: a service present (by name) only in the new schema contributes
exactly one change — the `added`/`service` one — and every channel- or
message-category change of `CompareSchemas` comes from comparing the
operations of a service present in both schemas. -/
theorem buildMap_key_mem {α : Type} (keyf : α → String) (xs : List α)
    (k : String) (h : ∃ x ∈ xs, keyf x = k) :
    ∃ v, mapLookup (buildMap keyf xs) k = some v := by
  rw [buildMap_lookup]
  rcases h with ⟨x, hx, hk⟩
  have hmem : x ∈ xs.filter (fun x => decide (keyf x = k)) :=
    List.mem_filter.mpr ⟨hx, by simp [hk]⟩
  cases hf : (xs.filter (fun x => decide (keyf x = k))).getLast? with
  | none =>
    rw [List.getLast?_eq_none_iff] at hf
    rw [hf] at hmem
    simp at hmem
  | some v => exact ⟨v, rfl⟩

theorem compareSchemas_added_service (old new : Schema) (n : String)
    (now : Nat) (hnew : n ∈ new.Services.map Service.Name)
    (hold : n ∉ old.Services.map Service.Name) :
    ((CompareSchemas old new now).Changes.countP (fun c =>
        decide (c.type = ChangeTypeAdded) && decide (c.Category = "service") &&
          decide (c.Name = n))) = 1 ∧
      ∀ c ∈ (CompareSchemas old new now).Changes,
        c.Category = "channel" ∨ c.Category = "message" →
        ∃ m oldSvc newSvc,
          mapLookup (buildMap Service.Name old.Services) m = some oldSvc ∧
          mapLookup (buildMap Service.Name new.Services) m = some newSvc ∧
          c ∈ compareServiceOperations oldSvc newSvc now := by
  constructor
  · simp only [CompareSchemas]
    rw [List.countP_append]
    have h2 : ((buildMap Service.Name old.Services).flatMap (fun e =>
        match mapLookup (buildMap Service.Name new.Services) e.1 with
        | none =>
            [{ type := ChangeTypeRemoved, Category := "service", Name := e.1,
               Details := quoted e.1 ++ " was removed",
               Diff := "", Timestamp := now }]
        | some newService =>
            compareServiceOperations e.2 newService now)).countP (fun c =>
          decide (c.type = ChangeTypeAdded) &&
            decide (c.Category = "service") && decide (c.Name = n)) = 0 := by
      rw [List.countP_eq_zero]
      intro c hc
      rcases List.mem_flatMap.mp hc with ⟨e, _, hce⟩
      split at hce
      · rw [List.mem_singleton.mp hce]
        simp [ChangeTypeAdded, ChangeTypeRemoved]
      · rcases compareServiceOperations_category _ _ _ _ hce with h | h <;>
          simp [h]
    rw [h2, Nat.add_zero]
    apply countP_filterMap_single _ _ _ n (buildMap_keys_nodup _ _)
    · rcases List.mem_map.mp hnew with ⟨svc, hsvc, hname⟩
      rcases buildMap_key_mem Service.Name new.Services n ⟨svc, hsvc, hname⟩
        with ⟨v, hv⟩
      exact ⟨(n, v), mem_of_mapLookup_eq_some _ _ _ hv, rfl⟩
    · intro e he hk
      have hnone : (mapLookup (buildMap Service.Name old.Services) e.1).isSome =
          false := by
        rw [Bool.eq_false_iff]
        intro hsome
        rcases (mapLookup_isSome_iff _ _).mp hsome with ⟨e', he', hk'⟩
        rcases mem_buildMap _ _ _ he' with ⟨svc, hsvc, heq⟩
        apply hold
        rw [← hk, ← hk']
        rw [heq]
        exact List.mem_map.mpr ⟨svc, hsvc, rfl⟩
      refine ⟨_, by rw [if_neg (by simp [hnone])], ?_⟩
      simp [hk, ChangeTypeAdded]
    · intro e he hk c hfc
      split at hfc
      · simp at hfc
      · rw [← Option.some.inj hfc]
        simp [hk]
  · intro c hc hcat
    simp only [CompareSchemas] at hc
    rcases List.mem_append.mp hc with h1 | h1
    · rcases List.mem_filterMap.mp h1 with ⟨e, _, hfe⟩
      split at hfe
      · simp at hfe
      · rw [← Option.some.inj hfe] at hcat
        rcases hcat with h | h <;> simp at h
    · rcases List.mem_flatMap.mp h1 with ⟨e, he, hce⟩
      cases hlook : mapLookup (buildMap Service.Name new.Services) e.1 with
      | none =>
        rw [hlook] at hce
        rw [List.mem_singleton.mp hce] at hcat
        rcases hcat with h | h <;> simp at h
      | some newSvc =>
        rw [hlook] at hce
        exact ⟨e.1, e.2, newSvc,
          mapLookup_eq_some_of_mem _ e he (buildMap_keys_nodup _ _), hlook, hce⟩

/-- Witness for C9 at a concrete input: service `"A"` exists only in the
new schema. -/
theorem compareSchemas_added_service_witness :
    ("A" ∈ (Schema.mk [⟨"A", "", []⟩]).Services.map Service.Name ∧
      "A" ∉ (Schema.mk []).Services.map Service.Name) ∧
    (((CompareSchemas ⟨[]⟩ ⟨[⟨"A", "", []⟩]⟩ 0).Changes.countP (fun c =>
        decide (c.type = ChangeTypeAdded) && decide (c.Category = "service") &&
          decide (c.Name = "A"))) = 1 ∧
      ∀ c ∈ (CompareSchemas ⟨[]⟩ ⟨[⟨"A", "", []⟩]⟩ 0).Changes,
        c.Category = "channel" ∨ c.Category = "message" →
        ∃ m oldSvc newSvc,
          mapLookup (buildMap Service.Name (Schema.mk []).Services) m =
            some oldSvc ∧
          mapLookup (buildMap Service.Name
            (Schema.mk [⟨"A", "", []⟩]).Services) m = some newSvc ∧
          c ∈ compareServiceOperations oldSvc newSvc 0) :=
  ⟨⟨by decide, by decide⟩,
    compareSchemas_added_service ⟨[]⟩ ⟨[⟨"A", "", []⟩]⟩ "A" 0
      (by decide) (by decide)⟩

/-! ## C3 / C10: MergeSchemas -/

theorem mapLookup_none_iff {α : Type} (m : List (String × α)) (k : String) :
    mapLookup m k = none ↔ ∀ e ∈ m, e.1 ≠ k := by
  unfold mapLookup
  cases hf : m.find? (fun e => decide (e.1 = k)) with
  | none =>
    simp only [Option.map_none', true_iff]
    rw [List.find?_eq_none] at hf
    intro e he
    have := hf e he
    simpa using this
  | some e =>
    simp only [Option.map_some']
    constructor
    · intro h
      simp at h
    · intro h
      exfalso
      have hk := List.find?_some hf
      simp only [decide_eq_true_eq] at hk
      exact h e (List.mem_of_find?_eq_some hf) hk

theorem mapInsert_of_lookup_none {α : Type} (m : List (String × α))
    (k : String) (v : α) (h : mapLookup m k = none) :
    mapInsert m k v = m ++ [(k, v)] := by
  unfold mapInsert
  rw [if_neg]
  intro hany
  rcases (any_key_iff m k).mp hany with ⟨e, he, hk⟩
  exact (mapLookup_none_iff m k).mp h e he hk

theorem mapLookup_append_of_none {α : Type} (m1 m2 : List (String × α))
    (k : String) (h : mapLookup m1 k = none) :
    mapLookup (m1 ++ m2) k = mapLookup m2 k := by
  unfold mapLookup at h ⊢
  rw [List.find?_append]
  cases hf : m1.find? (fun e => decide (e.1 = k)) with
  | none => simp
  | some e => rw [hf] at h; simp at h

theorem mapLookup_map_pairing (services : List Service) (n : String) :
    mapLookup (services.map (fun svc => (svc.Name, svc))) n =
      services.find? (fun svc => decide (svc.Name = n)) := by
  induction services with
  | nil => rfl
  | cons svc rest ih =>
    rw [List.map_cons]
    by_cases h : svc.Name = n
    · unfold mapLookup
      rw [List.find?_cons_of_pos _ (by simp [h]),
        List.find?_cons_of_pos _ (by simp [h])]
      rfl
    · unfold mapLookup
      rw [List.find?_cons_of_neg _ (by simp [h]),
        List.find?_cons_of_neg _ (by simp [h])]
      exact ih

theorem mergeFold_disjoint (services : List Service)
    (m0 : List (String × Service))
    (hdisj : ∀ svc ∈ services, mapLookup m0 svc.Name = none)
    (hnd : (services.map Service.Name).Nodup) :
    services.foldl mergeProcessService m0 =
      m0 ++ services.map (fun svc => (svc.Name, svc)) := by
  induction services generalizing m0 with
  | nil => simp
  | cons svc rest ih =>
    rw [List.foldl_cons]
    rw [List.map_cons, List.nodup_cons] at hnd
    have hstep : mergeProcessService m0 svc = m0 ++ [(svc.Name, svc)] := by
      unfold mergeProcessService
      rw [hdisj svc (List.mem_cons_self svc rest)]
      exact mapInsert_of_lookup_none m0 svc.Name svc
        (hdisj svc (List.mem_cons_self svc rest))
    rw [hstep, ih (m0 ++ [(svc.Name, svc)]) ?_ hnd.2, List.append_assoc,
      List.map_cons, List.singleton_append]
    intro svc' hsvc'
    rw [mapLookup_append_of_none _ _ _
      (hdisj svc' (List.mem_cons_of_mem svc hsvc'))]
    unfold mapLookup
    rw [List.find?_cons_of_neg _ ?_]
    · rfl
    · simp only [decide_eq_true_eq]
      intro hh
      exact hnd.1 (hh ▸ List.mem_map.mpr ⟨svc', hsvc', rfl⟩)

theorem mergeProcessService_lookup_ne (m : List (String × Service))
    (svc : Service) (n : String) (h : svc.Name ≠ n) :
    mapLookup (mergeProcessService m svc) n = mapLookup m n := by
  unfold mergeProcessService
  cases mapLookup m svc.Name with
  | none => exact mapLookup_insert_ne m svc.Name n svc (fun hh => h hh.symm)
  | some existing =>
    exact mapLookup_insert_ne m svc.Name n _ (fun hh => h hh.symm)

theorem mergeFold_preserves (services : List Service)
    (m : List (String × Service)) (n : String)
    (h : ∀ svc ∈ services, svc.Name ≠ n) :
    mapLookup (services.foldl mergeProcessService m) n = mapLookup m n := by
  induction services generalizing m with
  | nil => rfl
  | cons svc rest ih =>
    rw [List.foldl_cons, ih _ (fun s hs => h s (List.mem_cons_of_mem svc hs)),
      mergeProcessService_lookup_ne m svc n (h svc (List.mem_cons_self svc rest))]

theorem mergeFold_pass2 (services : List Service)
    (m : List (String × Service)) (n : String) (svc1 svc2 : Service)
    (hm : mapLookup m n = some svc1)
    (hnd : (services.map Service.Name).Nodup)
    (hfind : services.find? (fun svc => decide (svc.Name = n)) = some svc2) :
    mapLookup (services.foldl mergeProcessService m) n =
      some { svc1 with
        Operation := (buildMap operationKey
          (svc1.Operation ++ svc2.Operation)).map (fun e => e.2) } := by
  induction services generalizing m with
  | nil => simp at hfind
  | cons svc rest ih =>
    rw [List.foldl_cons]
    rw [List.map_cons, List.nodup_cons] at hnd
    by_cases hn : svc.Name = n
    · have hsvc2 : svc = svc2 := by
        rw [List.find?_cons_of_pos _ (by simp [hn])] at hfind
        exact Option.some.inj hfind
      have hstep : mergeProcessService m svc =
          mapInsert m svc.Name { svc1 with
            Operation := (buildMap operationKey
              (svc1.Operation ++ svc.Operation)).map (fun e => e.2) } := by
        unfold mergeProcessService
        rw [hn, hm]
      rw [hstep, mergeFold_preserves rest _ n ?_]
      · rw [hsvc2] at hn ⊢
        rw [hn]
        exact mapLookup_insert_self m n _
      · intro s hs
        intro hh
        exact hnd.1 (hn ▸ hh ▸ List.mem_map.mpr ⟨s, hs, rfl⟩)
    · rw [List.find?_cons_of_neg _ (by simp [hn])] at hfind
      have hm' : mapLookup (mergeProcessService m svc) n = some svc1 := by
        rw [mergeProcessService_lookup_ne m svc n hn]
        exact hm
      exact ih _ hm' hnd.2 hfind

theorem mergeFold_name_invariant (services : List Service)
    (m0 : List (String × Service)) (h0 : ∀ e ∈ m0, e.2.Name = e.1) :
    ∀ e ∈ services.foldl mergeProcessService m0, e.2.Name = e.1 := by
  induction services generalizing m0 with
  | nil => exact h0
  | cons svc rest ih =>
    rw [List.foldl_cons]
    apply ih
    intro e he
    unfold mergeProcessService at he
    cases hl : mapLookup m0 svc.Name with
    | none =>
      rw [hl] at he
      rcases mem_mapInsert _ _ _ _ he with h1 | h1
      · rw [h1]
      · exact h0 e h1
    | some existing =>
      rw [hl] at he
      rcases mem_mapInsert _ _ _ _ he with h1 | h1
      · rw [h1]
        exact h0 (svc.Name, existing) (mem_of_mapLookup_eq_some _ _ _ hl)
      · exact h0 e h1

theorem find?_values (m : List (String × Service)) (n : String)
    (hkey : ∀ e ∈ m, e.2.Name = e.1) :
    (m.map (fun e => e.2)).find? (fun svc => decide (svc.Name = n)) =
      mapLookup m n := by
  induction m with
  | nil => rfl
  | cons e rest ih =>
    rw [List.map_cons]
    have hname : e.2.Name = e.1 := hkey e (List.mem_cons_self e rest)
    by_cases h : e.1 = n
    · unfold mapLookup
      rw [List.find?_cons_of_pos _ (by simp [hname, h]),
        List.find?_cons_of_pos _ (by simp [h])]
      rfl
    · unfold mapLookup
      rw [List.find?_cons_of_neg _ (by simp [hname, h]),
        List.find?_cons_of_neg _ (by simp [h])]
      exact ih (fun e' he' => hkey e' (List.mem_cons_of_mem e he'))

theorem mapValues_filter (m : List (String × Operation)) (k : String)
    (hnd : (m.map (fun e => e.1)).Nodup)
    (hkey : ∀ e ∈ m, operationKey e.2 = e.1) :
    (m.map (fun e => e.2)).filter (fun op => decide (operationKey op = k)) =
      (mapLookup m k).toList := by
  induction m with
  | nil => rfl
  | cons e rest ih =>
    rw [List.map_cons, List.nodup_cons] at hnd
    have hke : operationKey e.2 = e.1 := hkey e (List.mem_cons_self e rest)
    rw [List.map_cons]
    by_cases h : e.1 = k
    · rw [List.filter_cons_of_pos (by simp [hke, h])]
      have hrest : (rest.map (fun e => e.2)).filter
          (fun op => decide (operationKey op = k)) = [] := by
        rw [List.filter_eq_nil_iff]
        intro op hop
        rcases List.mem_map.mp hop with ⟨e', he', heq⟩
        simp only [decide_eq_true_eq]
        intro hh
        apply hnd.1
        have he1 : e'.1 = e.1 := by
          rw [← hkey e' (List.mem_cons_of_mem e he'), heq, hh, h]
        rw [← he1]
        exact List.mem_map.mpr ⟨e', he', rfl⟩
      rw [hrest]
      unfold mapLookup
      rw [List.find?_cons_of_pos _ (by simp [h])]
      rfl
    · rw [List.filter_cons_of_neg (by simp [hke, h])]
      unfold mapLookup
      rw [List.find?_cons_of_neg _ (by simp [h])]
      exact ih hnd.2 (fun e' he' => hkey e' (List.mem_cons_of_mem e he'))

/-- The service the pairwise merge of two schemas holds under a common
name: the first schema's service with the operations of both, merged by
operation key. -/
theorem mergeSchemas_pair_lookup (s1 s2 : Schema) (n : String)
    (svc1 svc2 : Service)
    (hnd1 : (s1.Services.map Service.Name).Nodup)
    (hnd2 : (s2.Services.map Service.Name).Nodup)
    (hfind1 : s1.Services.find? (fun svc => decide (svc.Name = n)) = some svc1)
    (hfind2 : s2.Services.find? (fun svc => decide (svc.Name = n)) = some svc2) :
    (MergeSchemas [s1, s2]).Services.find? (fun svc => decide (svc.Name = n)) =
      some { svc1 with
        Operation := (buildMap operationKey
          (svc1.Operation ++ svc2.Operation)).map (fun e => e.2) } := by
  unfold MergeSchemas
  simp only [List.foldl_cons, List.foldl_nil]
  have h1 : s1.Services.foldl mergeProcessService [] =
      s1.Services.map (fun svc => (svc.Name, svc)) := by
    have := mergeFold_disjoint s1.Services [] (fun svc _ => rfl) hnd1
    simpa using this
  rw [h1]
  have hkeyinv : ∀ e ∈ s2.Services.foldl mergeProcessService
      (s1.Services.map (fun svc => (svc.Name, svc))), e.2.Name = e.1 := by
    apply mergeFold_name_invariant
    intro e he
    rcases List.mem_map.mp he with ⟨svc, _, heq⟩
    rw [← heq]
  rw [find?_values _ n hkeyinv]
  apply mergeFold_pass2 s2.Services _ n svc1 svc2 ?_ hnd2 hfind2
  rw [mapLookup_map_pairing]
  exact hfind1

theorem mergedOps_filter (ops1 ops2 : List Operation) (k : String)
    (op2 : Operation)
    (hop2 : mapLookup (buildMap operationKey ops2) k = some op2) :
    ((buildMap operationKey (ops1 ++ ops2)).map (fun e => e.2)).filter
      (fun op => decide (operationKey op = k)) = [op2] := by
  rw [mapValues_filter _ k (buildMap_keys_nodup _ _)
    (fun e he => buildMap_entry_key _ _ e he)]
  rw [buildMap_lookup] at hop2 ⊢
  rw [List.filter_append, List.getLast?_append, hop2]
  rfl

theorem mergedOps_coverage (ops : List Operation) (k' : String)
    (h : ∃ op ∈ ops, operationKey op = k') :
    ∃ op' ∈ (buildMap operationKey ops).map (fun e => e.2),
      operationKey op' = k' := by
  rcases buildMap_key_mem operationKey ops k' h with ⟨v, hv⟩
  have hmem := mem_of_mapLookup_eq_some _ _ _ hv
  exact ⟨v, List.mem_map.mpr ⟨(k', v), hmem, rfl⟩,
    buildMap_entry_key _ _ _ hmem⟩

/-- C3: when both inputs hold a same-named service with operations sharing
an operation key but different message payloads, the merged service keeps
exactly one operation for that key, equal to the second input's; and every
key occurring in either input survives into the merged service. -/
theorem mergeSchemas_last_write_wins (s1 s2 : Schema) (n : String)
    (svc1 svc2 : Service) (op1 op2 : Operation) (k : String)
    (hnd1 : (s1.Services.map Service.Name).Nodup)
    (hnd2 : (s2.Services.map Service.Name).Nodup)
    (hfind1 : s1.Services.find? (fun svc => decide (svc.Name = n)) = some svc1)
    (hfind2 : s2.Services.find? (fun svc => decide (svc.Name = n)) = some svc2)
    (_hop1 : mapLookup (buildMap operationKey svc1.Operation) k = some op1)
    (hop2 : mapLookup (buildMap operationKey svc2.Operation) k = some op2)
    (_hdiff : op1.Channel.Messages ≠ op2.Channel.Messages) :
    ∃ svcm,
      (MergeSchemas [s1, s2]).Services.find?
        (fun svc => decide (svc.Name = n)) = some svcm ∧
      svcm.Operation.filter (fun op => decide (operationKey op = k)) = [op2] ∧
      ∀ k', (∃ op ∈ svc1.Operation ++ svc2.Operation, operationKey op = k') →
        ∃ op' ∈ svcm.Operation, operationKey op' = k' := by
  refine ⟨_, mergeSchemas_pair_lookup s1 s2 n svc1 svc2 hnd1 hnd2 hfind1 hfind2,
    ?_, ?_⟩
  · exact mergedOps_filter svc1.Operation svc2.Operation k op2 hop2
  · intro k' hk'
    exact mergedOps_coverage _ k' hk'

/-- Witness for C3 at concrete inputs: both schemas hold service `"S"`
with a `send` operation on channel `"ch"` carrying message `"m"`, with
payloads `"p1"` and `"p2"`; the merge keeps exactly the second one. -/
theorem mergeSchemas_last_write_wins_witness :
    ∃ svcm,
      (MergeSchemas [⟨[⟨"S", "", [⟨ActionSend, ⟨"ch", [⟨"m", "p1"⟩]⟩, none⟩]⟩]⟩,
        ⟨[⟨"S", "", [⟨ActionSend, ⟨"ch", [⟨"m", "p2"⟩]⟩, none⟩]⟩]⟩]).Services.find?
          (fun svc => decide (svc.Name = "S")) = some svcm ∧
      svcm.Operation.filter (fun op =>
        decide (operationKey op = "send-ch-m")) =
        [⟨ActionSend, ⟨"ch", [⟨"m", "p2"⟩]⟩, none⟩] ∧
      ∀ k', (∃ op ∈
          ([⟨ActionSend, ⟨"ch", [⟨"m", "p1"⟩]⟩, none⟩] ++
            [⟨ActionSend, ⟨"ch", [⟨"m", "p2"⟩]⟩, none⟩] : List Operation),
          operationKey op = k') →
        ∃ op' ∈ svcm.Operation, operationKey op' = k' :=
  mergeSchemas_last_write_wins
    ⟨[⟨"S", "", [⟨ActionSend, ⟨"ch", [⟨"m", "p1"⟩]⟩, none⟩]⟩]⟩
    ⟨[⟨"S", "", [⟨ActionSend, ⟨"ch", [⟨"m", "p2"⟩]⟩, none⟩]⟩]⟩
    "S" ⟨"S", "", [⟨ActionSend, ⟨"ch", [⟨"m", "p1"⟩]⟩, none⟩]⟩
    ⟨"S", "", [⟨ActionSend, ⟨"ch", [⟨"m", "p2"⟩]⟩, none⟩]⟩
    ⟨ActionSend, ⟨"ch", [⟨"m", "p1"⟩]⟩, none⟩
    ⟨ActionSend, ⟨"ch", [⟨"m", "p2"⟩]⟩, none⟩
    "send-ch-m" (by decide) (by decide) (by decide) (by decide) (by decide)
    (by decide) (by decide)

theorem keyComponents_determines (a b : Operation)
    (h : keyComponents a = keyComponents b) :
    operationKey a = operationKey b := by
  unfold keyComponents at h
  simp only [Prod.mk.injEq] at h
  obtain ⟨h1, h2, h3, h4⟩ := h
  simp only [operationKey]
  rw [h1, h2, h3]
  cases ha : a.Reply with
  | none =>
    cases hb : b.Reply with
    | none => rfl
    | some rb =>
      rw [ha, hb] at h4
      simp at h4
  | some ra =>
    cases hb : b.Reply with
    | none =>
      rw [ha, hb] at h4
      simp at h4
    | some rb =>
      rw [ha, hb] at h4
      simp only [Option.map_some', Option.some.injEq, Prod.mk.injEq] at h4
      simp only [h4.1, h4.2]

/-- C10: `operationKey` depends only on the action, the primary channel
name, the first primary message name, and — when a reply is present — the
reply channel name and first reply message name; consequently two
operations of same-named services that agree on those components (but may
differ in later messages or payloads) are collapsed by `MergeSchemas` into
the single operation contributed by the later input. -/
theorem operationKey_components_merge (s1 s2 : Schema) (n : String)
    (svc1 svc2 : Service) (op1 op2 : Operation)
    (hnd1 : (s1.Services.map Service.Name).Nodup)
    (hnd2 : (s2.Services.map Service.Name).Nodup)
    (hfind1 : s1.Services.find? (fun svc => decide (svc.Name = n)) = some svc1)
    (hfind2 : s2.Services.find? (fun svc => decide (svc.Name = n)) = some svc2)
    (hcomp : keyComponents op1 = keyComponents op2)
    (_hop1 : mapLookup (buildMap operationKey svc1.Operation)
      (operationKey op1) = some op1)
    (hop2 : mapLookup (buildMap operationKey svc2.Operation)
      (operationKey op2) = some op2) :
    (∀ a b : Operation,
        keyComponents a = keyComponents b → operationKey a = operationKey b) ∧
    ∃ svcm,
      (MergeSchemas [s1, s2]).Services.find?
        (fun svc => decide (svc.Name = n)) = some svcm ∧
      svcm.Operation.filter
        (fun op => decide (operationKey op = operationKey op1)) = [op2] := by
  refine ⟨keyComponents_determines, ?_⟩
  have hkey : operationKey op1 = operationKey op2 :=
    keyComponents_determines op1 op2 hcomp
  refine ⟨_, mergeSchemas_pair_lookup s1 s2 n svc1 svc2 hnd1 hnd2 hfind1
    hfind2, ?_⟩
  rw [hkey]
  exact mergedOps_filter svc1.Operation svc2.Operation _ op2 hop2

/-- Witness for C10 at concrete inputs: the two operations agree on the
key components but differ in a trailing message and in the first payload;
the merge keeps exactly the second input's operation. -/
theorem operationKey_components_merge_witness :
    (∀ a b : Operation,
        keyComponents a = keyComponents b → operationKey a = operationKey b) ∧
    ∃ svcm,
      (MergeSchemas
        [⟨[⟨"S", "",
            [⟨ActionSend, ⟨"ch", [⟨"m", "p1"⟩, ⟨"extra", "q"⟩]⟩, none⟩]⟩]⟩,
         ⟨[⟨"S", "",
            [⟨ActionSend, ⟨"ch", [⟨"m", "p2"⟩]⟩, none⟩]⟩]⟩]).Services.find?
          (fun svc => decide (svc.Name = "S")) = some svcm ∧
      svcm.Operation.filter (fun op =>
        decide (operationKey op =
          operationKey ⟨ActionSend, ⟨"ch", [⟨"m", "p1"⟩, ⟨"extra", "q"⟩]⟩,
            none⟩)) =
        [⟨ActionSend, ⟨"ch", [⟨"m", "p2"⟩]⟩, none⟩] :=
  operationKey_components_merge
    ⟨[⟨"S", "", [⟨ActionSend, ⟨"ch", [⟨"m", "p1"⟩, ⟨"extra", "q"⟩]⟩, none⟩]⟩]⟩
    ⟨[⟨"S", "", [⟨ActionSend, ⟨"ch", [⟨"m", "p2"⟩]⟩, none⟩]⟩]⟩
    "S" ⟨"S", "", [⟨ActionSend, ⟨"ch", [⟨"m", "p1"⟩, ⟨"extra", "q"⟩]⟩, none⟩]⟩
    ⟨"S", "", [⟨ActionSend, ⟨"ch", [⟨"m", "p2"⟩]⟩, none⟩]⟩
    ⟨ActionSend, ⟨"ch", [⟨"m", "p1"⟩, ⟨"extra", "q"⟩]⟩, none⟩
    ⟨ActionSend, ⟨"ch", [⟨"m", "p2"⟩]⟩, none⟩
    (by decide) (by decide) (by decide) (by decide) (by decide) (by decide)
    (by decide)

/-! ## C2: reply presence mismatch on a matched operation key -/

theorem string_ne_append_reply (x : String) : x ≠ x ++ ":reply" := by
  intro h
  have hlen := congrArg String.length h
  rw [String.length_append] at hlen
  have : (":reply" : String).length = 6 := rfl
  rw [this] at hlen
  omega

theorem compareServiceOperations_mem_matched (oldSvc newSvc : Service)
    (now : Nat) (k : String) (op1 op2 : Operation) (c : Change)
    (hop1 : mapLookup (buildMap operationKey oldSvc.Operation) k = some op1)
    (hop2 : mapLookup (buildMap operationKey newSvc.Operation) k = some op2)
    (hc : c ∈ diffMatchedOps newSvc.Name k op1 op2 now) :
    c ∈ compareServiceOperations oldSvc newSvc now := by
  simp only [compareServiceOperations]
  apply List.mem_append_right
  apply List.mem_flatMap.mpr
  refine ⟨(k, op1), mem_of_mapLookup_eq_some _ _ _ hop1, ?_⟩
  show c ∈ (match mapLookup (buildMap operationKey newSvc.Operation) k with
    | none =>
        ([{ type := ChangeTypeRemoved, Category := "channel",
            Name := oldSvc.Name ++ ":" ++ k,
            Details := quoted op1.Action ++ " on channel " ++
              quoted op1.Channel.Name ++ " was removed from service " ++
              quoted oldSvc.Name,
            Diff := "", Timestamp := now }] : List Change)
    | some newOp => diffMatchedOps newSvc.Name k op1 newOp now)
  rw [hop2]
  exact hc

theorem compareSchemas_mem_common (old new : Schema) (now : Nat) (n : String)
    (oldSvc newSvc : Service) (c : Change)
    (hold : mapLookup (buildMap Service.Name old.Services) n = some oldSvc)
    (hnew : mapLookup (buildMap Service.Name new.Services) n = some newSvc)
    (hc : c ∈ compareServiceOperations oldSvc newSvc now) :
    c ∈ (CompareSchemas old new now).Changes := by
  simp only [CompareSchemas]
  apply List.mem_append_right
  apply List.mem_flatMap.mpr
  refine ⟨(n, oldSvc), mem_of_mapLookup_eq_some _ _ _ hold, ?_⟩
  show c ∈ (match mapLookup (buildMap Service.Name new.Services) n with
    | none =>
        ([{ type := ChangeTypeRemoved, Category := "service", Name := n,
            Details := quoted n ++ " was removed",
            Diff := "", Timestamp := now }] : List Change)
    | some newService => compareServiceOperations oldSvc newService now)
  rw [hnew]
  exact hc

/-- C2: when an old and a new operation of a common service match by
operation key and exactly one of them has a reply channel, `CompareSchemas`
emits a `removed`/`channel` (resp. `added`/`channel`) change named with the
`:reply` suffix, and the matched-operation diff emits no `changed`/`message`
change for that reply. -/
theorem compareSchemas_reply_presence (old new : Schema) (n k : String)
    (oldSvc newSvc : Service) (op1 op2 : Operation) (now : Nat)
    (hold : mapLookup (buildMap Service.Name old.Services) n = some oldSvc)
    (hnew : mapLookup (buildMap Service.Name new.Services) n = some newSvc)
    (hop1 : mapLookup (buildMap operationKey oldSvc.Operation) k = some op1)
    (hop2 : mapLookup (buildMap operationKey newSvc.Operation) k = some op2) :
    ((∃ r, op1.Reply = some r) → op2.Reply = none →
      (∃ c ∈ (CompareSchemas old new now).Changes,
        c.type = ChangeTypeRemoved ∧ c.Category = "channel" ∧
          c.Name = newSvc.Name ++ ":" ++ k ++ ":reply") ∧
      ∀ c ∈ diffMatchedOps newSvc.Name k op1 op2 now,
        ¬(c.Category = "message" ∧
          c.Name = newSvc.Name ++ ":" ++ k ++ ":reply")) ∧
    (op1.Reply = none → (∃ r, op2.Reply = some r) →
      (∃ c ∈ (CompareSchemas old new now).Changes,
        c.type = ChangeTypeAdded ∧ c.Category = "channel" ∧
          c.Name = newSvc.Name ++ ":" ++ k ++ ":reply") ∧
      ∀ c ∈ diffMatchedOps newSvc.Name k op1 op2 now,
        ¬(c.Category = "message" ∧
          c.Name = newSvc.Name ++ ":" ++ k ++ ":reply")) := by
  constructor
  · rintro ⟨r, hr1⟩ hr2
    constructor
    · have hmem : ∃ c ∈ diffMatchedOps newSvc.Name k op1 op2 now,
          c.type = ChangeTypeRemoved ∧ c.Category = "channel" ∧
            c.Name = newSvc.Name ++ ":" ++ k ++ ":reply" := by
        unfold diffMatchedOps
        rw [hr1, hr2]
        exact ⟨_, List.mem_append_right _ (List.mem_singleton.mpr rfl),
          rfl, rfl, rfl⟩
      rcases hmem with ⟨c, hcmem, hprops⟩
      exact ⟨c, compareSchemas_mem_common old new now n oldSvc newSvc c hold
        hnew (compareServiceOperations_mem_matched oldSvc newSvc now k op1 op2
          c hop1 hop2 hcmem), hprops⟩
    · intro c hc
      unfold diffMatchedOps at hc
      rw [hr1, hr2] at hc
      rcases List.mem_append.mp hc with h1 | h1
      · split at h1
        · rw [List.mem_singleton.mp h1]
          rintro ⟨_, hname⟩
          exact string_ne_append_reply (newSvc.Name ++ ":" ++ k) hname
        · simp at h1
      · rw [List.mem_singleton.mp h1]
        rintro ⟨hcat, _⟩
        simp at hcat
  · rintro hr1 ⟨r, hr2⟩
    constructor
    · have hmem : ∃ c ∈ diffMatchedOps newSvc.Name k op1 op2 now,
          c.type = ChangeTypeAdded ∧ c.Category = "channel" ∧
            c.Name = newSvc.Name ++ ":" ++ k ++ ":reply" := by
        unfold diffMatchedOps
        rw [hr1, hr2]
        exact ⟨_, List.mem_append_right _ (List.mem_singleton.mpr rfl),
          rfl, rfl, rfl⟩
      rcases hmem with ⟨c, hcmem, hprops⟩
      exact ⟨c, compareSchemas_mem_common old new now n oldSvc newSvc c hold
        hnew (compareServiceOperations_mem_matched oldSvc newSvc now k op1 op2
          c hop1 hop2 hcmem), hprops⟩
    · intro c hc
      unfold diffMatchedOps at hc
      rw [hr1, hr2] at hc
      rcases List.mem_append.mp hc with h1 | h1
      · split at h1
        · rw [List.mem_singleton.mp h1]
          rintro ⟨_, hname⟩
          exact string_ne_append_reply (newSvc.Name ++ ":" ++ k) hname
        · simp at h1
      · rw [List.mem_singleton.mp h1]
        rintro ⟨hcat, _⟩
        simp at hcat

/-- Witness for C2 at concrete inputs exhibiting a key match between an
operation with a reply and one without (the reply-free operation encodes
the `-reply-` suffix in its first message name). -/
theorem compareSchemas_reply_presence_witness :
    (∃ c ∈ (CompareSchemas
        ⟨[⟨"svc", "", [⟨ActionSend, ⟨"ch", [⟨"m", ""⟩]⟩,
          some ⟨"r", [⟨"x", ""⟩]⟩⟩]⟩]⟩
        ⟨[⟨"svc", "", [⟨ActionSend, ⟨"ch", [⟨"m-reply-r-x", ""⟩]⟩,
          none⟩]⟩]⟩ 0).Changes,
      c.type = ChangeTypeRemoved ∧ c.Category = "channel" ∧
        c.Name = "svc" ++ ":" ++ "send-ch-m-reply-r-x" ++ ":reply") ∧
    ∀ c ∈ diffMatchedOps "svc" "send-ch-m-reply-r-x"
        ⟨ActionSend, ⟨"ch", [⟨"m", ""⟩]⟩, some ⟨"r", [⟨"x", ""⟩]⟩⟩
        ⟨ActionSend, ⟨"ch", [⟨"m-reply-r-x", ""⟩]⟩, none⟩ 0,
      ¬(c.Category = "message" ∧
        c.Name = "svc" ++ ":" ++ "send-ch-m-reply-r-x" ++ ":reply") :=
  (compareSchemas_reply_presence
    ⟨[⟨"svc", "", [⟨ActionSend, ⟨"ch", [⟨"m", ""⟩]⟩,
      some ⟨"r", [⟨"x", ""⟩]⟩⟩]⟩]⟩
    ⟨[⟨"svc", "", [⟨ActionSend, ⟨"ch", [⟨"m-reply-r-x", ""⟩]⟩, none⟩]⟩]⟩
    "svc" "send-ch-m-reply-r-x"
    ⟨"svc", "", [⟨ActionSend, ⟨"ch", [⟨"m", ""⟩]⟩,
      some ⟨"r", [⟨"x", ""⟩]⟩⟩]⟩
    ⟨"svc", "", [⟨ActionSend, ⟨"ch", [⟨"m-reply-r-x", ""⟩]⟩, none⟩]⟩
    ⟨ActionSend, ⟨"ch", [⟨"m", ""⟩]⟩, some ⟨"r", [⟨"x", ""⟩]⟩⟩
    ⟨ActionSend, ⟨"ch", [⟨"m-reply-r-x", ""⟩]⟩, none⟩ 0
    (by decide) (by decide) (by decide) (by decide)).1
    ⟨⟨"r", [⟨"x", ""⟩]⟩, rfl⟩ rfl

/-! ## C4: context-services bidirectional connections -/

theorem getLast?_mem_of_eq_some {α : Type} (l : List α) (a : α)
    (h : l.getLast? = some a) : a ∈ l := by
  induction l with
  | nil => simp at h
  | cons x rest ih =>
    cases hr : rest with
    | nil =>
      subst hr
      rw [List.getLast?_singleton] at h
      exact List.mem_singleton.mpr (Option.some.inj h).symm
    | cons y ys =>
      subst hr
      rw [List.getLast?_cons_cons] at h
      exact List.mem_cons_of_mem x (ih h)

theorem getLast?_of_all_eq {α : Type} (l : List α) (v : α) (hne : l ≠ [])
    (hall : ∀ x ∈ l, x = v) : l.getLast? = some v := by
  induction l with
  | nil => contradiction
  | cons x rest ih =>
    cases hr : rest with
    | nil =>
      subst hr
      rw [List.getLast?_singleton, hall x (List.mem_cons_self x [])]
    | cons y ys =>
      subst hr
      rw [List.getLast?_cons_cons]
      exact ih (by simp) (fun z hz => hall z (List.mem_cons_of_mem x hz))

theorem pairHasSend_spec (s : Schema) (a b : String)
    (h : pairHasSend s a b = true) :
    a ≠ b ∧ (∃ svc ∈ s.Services, svc.Name = a) ∧
      ∃ svc ∈ s.Services, svc.Name = b := by
  unfold pairHasSend at h
  simp only [List.any_eq_true, Bool.and_eq_true, decide_eq_true_eq] at h
  obtain ⟨svc, hsvc, hname, op, hop, hact, other, hother, ⟨hne, hnb⟩, -⟩ := h
  refine ⟨?_, ⟨svc, hsvc, hname⟩, ⟨other, hother, hnb⟩⟩
  intro hab
  apply hne
  rw [hnb, hname, hab]

theorem mem_servicePairsList (s : Schema) (a b : String)
    (h : pairHasSend s a b = true) : (a, b) ∈ servicePairsList s := by
  obtain ⟨-, ⟨svc, hsvc, hname⟩, ⟨other, hother, hnb⟩⟩ := pairHasSend_spec s a b h
  unfold servicePairsList
  apply List.mem_flatMap.mpr
  refine ⟨svc, hsvc, ?_⟩
  apply List.mem_filterMap.mpr
  refine ⟨other, hother, ?_⟩
  rw [hname, hnb, if_pos h]

theorem servicePairsList_mem_spec (s : Schema) (e : String × String)
    (h : e ∈ servicePairsList s) : pairHasSend s e.1 e.2 = true := by
  unfold servicePairsList at h
  rcases List.mem_flatMap.mp h with ⟨svc, _, hmem⟩
  rcases List.mem_filterMap.mp hmem with ⟨other, _, hif⟩
  by_cases hc : pairHasSend s svc.Name other.Name = true
  · rw [if_pos hc] at hif
    obtain rfl : (svc.Name, other.Name) = e := Option.some.inj hif
    exact hc
  · rw [if_neg hc] at hif
    exact absurd hif (by simp)

theorem canon_cases (s : Schema) (a b : String) :
    (pairHasSend s b a = false ∧ canonPair s a b = (a, b)) ∨
      (pairHasSend s b a = true ∧
        ((canonPair s a b = (a, b) ∧ strLt a b = true) ∨
          (canonPair s a b = (b, a) ∧ strLt a b = false))) := by
  unfold canonPair
  cases hba : pairHasSend s b a with
  | false =>
    left
    exact ⟨rfl, by simp⟩
  | true =>
    right
    refine ⟨rfl, ?_⟩
    cases hlt : strLt a b with
    | true =>
      left
      exact ⟨by simp [hlt], rfl⟩
    | false =>
      right
      exact ⟨by simp [hlt], rfl⟩

theorem canonPair_AB (s : Schema) (A B : String)
    (hAB : pairHasSend s A B = true) (hBA : pairHasSend s B A = true) :
    canonPair s A B = (min A B, max A B) := by
  have hne : A ≠ B := (pairHasSend_spec s A B hAB).1
  rcases canon_cases s A B with ⟨hba, _⟩ | ⟨_, hc⟩
  · rw [hba] at hBA
    simp at hBA
  · rcases hc with ⟨hc, hlt⟩ | ⟨hc, hlt⟩
    · have hABlt : A < B := (strLt_iff A B).mp hlt
      rw [hc, min_eq_left (le_of_lt hABlt), max_eq_right (le_of_lt hABlt)]
    · have hBAlt : B < A := by
        have hle : B ≤ A := (strLt_false_iff A B).mp hlt
        exact lt_of_le_of_ne hle (Ne.symm hne)
      rw [hc, min_eq_right (le_of_lt hBAlt), max_eq_left (le_of_lt hBAlt)]

theorem canon_between (s : Schema) (A B a b : String)
    (hAB : pairHasSend s A B = true) (hBA : pairHasSend s B A = true)
    (hab : pairHasSend s a b = true)
    (h : canonPair s a b = (A, B) ∨ canonPair s a b = (B, A)) :
    canonPair s a b = (min A B, max A B) := by
  have hne : A ≠ B := (pairHasSend_spec s A B hAB).1
  have hneab : a ≠ b := (pairHasSend_spec s a b hab).1
  rcases canon_cases s a b with ⟨hba, hc⟩ | ⟨hba, hc⟩
  · exfalso
    rcases h with h | h
    · rw [hc, Prod.mk.injEq] at h
      rw [h.1, h.2] at hba
      rw [hba] at hBA
      simp at hBA
    · rw [hc, Prod.mk.injEq] at h
      rw [h.1, h.2] at hba
      rw [hba] at hAB
      simp at hAB
  · rcases hc with ⟨hc, hlt⟩ | ⟨hc, hlt⟩
    · have hablt : a < b := (strLt_iff a b).mp hlt
      rcases h with h | h
      · rw [hc, Prod.mk.injEq] at h
        rw [hc, h.1, h.2]
        rw [h.1, h.2] at hablt
        rw [min_eq_left (le_of_lt hablt), max_eq_right (le_of_lt hablt)]
      · rw [hc, Prod.mk.injEq] at h
        rw [hc, h.1, h.2]
        rw [h.1, h.2] at hablt
        rw [min_eq_right (le_of_lt hablt), max_eq_left (le_of_lt hablt)]
    · have hbalt : b < a := by
        have hle : b ≤ a := (strLt_false_iff a b).mp hlt
        exact lt_of_le_of_ne hle (Ne.symm hneab)
      rcases h with h | h
      · rw [hc, Prod.mk.injEq] at h
        rw [hc, h.1, h.2]
        rw [h.1, h.2] at hbalt
        rw [min_eq_left (le_of_lt hbalt), max_eq_right (le_of_lt hbalt)]
      · rw [hc, Prod.mk.injEq] at h
        rw [hc, h.1, h.2]
        rw [h.1, h.2] at hbalt
        rw [min_eq_right (le_of_lt hbalt), max_eq_left (le_of_lt hbalt)]

theorem connOfPair_between (s : Schema) (A B a b : String)
    (hAB : pairHasSend s A B = true) (hBA : pairHasSend s B A = true)
    (hcanon : canonPair s a b = (min A B, max A B)) :
    connOfPair s a b =
      { From := min A B, To := max A B,
        Label := determineConnectionLabel s (min A B) (max A B),
        Bidirectional := true } := by
  have hba : pairHasSend s b a = true := by
    rcases canon_cases s a b with ⟨hba', hc⟩ | ⟨hba', _⟩
    · exfalso
      rw [hc, Prod.mk.injEq] at hcanon
      rcases le_total A B with hle | hle
      · rw [min_eq_left hle, max_eq_right hle] at hcanon
        rw [hcanon.1, hcanon.2] at hba'
        rw [hba'] at hBA
        simp at hBA
      · rw [min_eq_right hle, max_eq_left hle] at hcanon
        rw [hcanon.1, hcanon.2] at hba'
        rw [hba'] at hAB
        simp at hAB
    · exact hba'
  unfold connOfPair
  rw [hcanon, hba]

theorem contextEntries_mem_spec (s : Schema) (en : String × Connection)
    (h : en ∈ contextEntries s) :
    ∃ e ∈ servicePairsList s,
      en = (keyOfPair (canonPair s e.1 e.2), connOfPair s e.1 e.2) := by
  unfold contextEntries at h
  rcases List.mem_map.mp h with ⟨e, he, heq⟩
  exact ⟨e, he, heq.symm⟩

theorem entry_AB_mem (s : Schema) (A B : String)
    (hAB : pairHasSend s A B = true) :
    (keyOfPair (canonPair s A B), connOfPair s A B) ∈ contextEntries s := by
  unfold contextEntries
  exact List.mem_map.mpr ⟨(A, B), mem_servicePairsList s A B hAB, rfl⟩

theorem ctxLastLookup_AB (s : Schema) (A B : String)
    (hAB : pairHasSend s A B = true) (hBA : pairHasSend s B A = true)
    (hinj : ∀ p ∈ (servicePairsList s).map (fun e => canonPair s e.1 e.2),
      ∀ q ∈ (servicePairsList s).map (fun e => canonPair s e.1 e.2),
      keyOfPair p = keyOfPair q → p = q) :
    ctxLastLookup (contextEntries s) (keyOfPair (canonPair s A B)) =
      some (connOfPair s A B) := by
  have hallv : ∀ x ∈ (contextEntries s).filter
      (fun e => decide (e.1 = keyOfPair (canonPair s A B))),
      x = (keyOfPair (canonPair s A B), connOfPair s A B) := by
    intro x hx
    obtain ⟨hxe, hxk⟩ := List.mem_filter.mp hx
    simp only [decide_eq_true_eq] at hxk
    rcases contextEntries_mem_spec s x hxe with ⟨e, hepair, hxeq⟩
    subst hxeq
    have hkey : keyOfPair (canonPair s e.1 e.2) = keyOfPair (canonPair s A B) :=
      hxk
    have hcanon : canonPair s e.1 e.2 = canonPair s A B := by
      apply hinj _ (List.mem_map.mpr ⟨e, hepair, rfl⟩) _
        (List.mem_map.mpr ⟨(A, B), mem_servicePairsList s A B hAB, rfl⟩) hkey
    have habmm : canonPair s A B = (min A B, max A B) :=
      canonPair_AB s A B hAB hBA
    have hce : connOfPair s e.1 e.2 = connOfPair s A B := by
      rw [connOfPair_between s A B e.1 e.2 hAB hBA (hcanon.trans habmm),
        connOfPair_between s A B A B hAB hBA habmm]
    rw [hkey, hce]
  have hmemf : (keyOfPair (canonPair s A B), connOfPair s A B) ∈
      (contextEntries s).filter
        (fun e => decide (e.1 = keyOfPair (canonPair s A B))) :=
    List.mem_filter.mpr ⟨entry_AB_mem s A B hAB, by simp⟩
  unfold ctxLastLookup
  rw [getLast?_of_all_eq _ _ (List.ne_nil_of_mem hmemf) hallv]
  rfl

theorem ctxLastLookup_spec (s : Schema) (k : String)
    (hk : k ∈ (contextEntries s).map (fun e => e.1)) :
    ∃ c, ctxLastLookup (contextEntries s) k = some c ∧
      (∃ e ∈ servicePairsList s, canonPair s e.1 e.2 = (c.From, c.To)) ∧
      c.From ++ "->" ++ c.To = k := by
  have hne : (contextEntries s).filter (fun e => decide (e.1 = k)) ≠ [] := by
    rcases List.mem_map.mp hk with ⟨en, hen, hkeq⟩
    exact List.ne_nil_of_mem (List.mem_filter.mpr ⟨hen, by simp [hkeq]⟩)
  cases hl : ((contextEntries s).filter (fun e => decide (e.1 = k))).getLast?
    with
  | none =>
    rw [List.getLast?_eq_none_iff] at hl
    contradiction
  | some en =>
    have henf := getLast?_mem_of_eq_some _ _ hl
    obtain ⟨hene, henk⟩ := List.mem_filter.mp henf
    simp only [decide_eq_true_eq] at henk
    rcases contextEntries_mem_spec s en hene with ⟨e, hepair, heneq⟩
    subst heneq
    refine ⟨connOfPair s e.1 e.2, ?_, ⟨e, hepair, ?_⟩, ?_⟩
    · unfold ctxLastLookup
      rw [hl]
      rfl
    · show canonPair s e.1 e.2 =
        ((canonPair s e.1 e.2).1, (canonPair s e.1 e.2).2)
      exact Prod.mk.eta.symm
    · exact henk

theorem strRel_total (a b : String) :
    (strLt b a = false) ∨ (strLt a b = false) := by
  rw [strLt_false_iff, strLt_false_iff]
  exact le_total a b

theorem strRel_trans (a b c : String) (h1 : strLt b a = false)
    (h2 : strLt c b = false) : strLt c a = false := by
  rw [strLt_false_iff] at h1 h2 ⊢
  exact le_trans h1 h2

theorem contextKeys_nodup (s : Schema) : (contextKeys s).Nodup := by
  unfold contextKeys
  exact (List.perm_insertionSort _ _).nodup_iff.mpr (List.nodup_dedup _)

theorem contextKeys_sorted (s : Schema) : (contextKeys s).Sorted (· ≤ ·) := by
  unfold contextKeys
  have hs := @List.sorted_insertionSort String (fun a b => strLt b a = false)
    (fun a b => instDecidableEqBool _ _) ⟨strRel_total⟩ ⟨strRel_trans⟩
    (((contextEntries s).map (fun e => e.1)).dedup)
  refine hs.imp ?_
  intro a b hab
  rw [strLt_false_iff] at hab
  exact hab

theorem mem_contextKeys_iff (s : Schema) (k : String) :
    k ∈ contextKeys s ↔ k ∈ (contextEntries s).map (fun e => e.1) := by
  unfold contextKeys
  rw [List.mem_insertionSort, List.mem_dedup]

theorem filterMap_all_some {α β : Type} (F : α → Option β) (g : β → α)
    (l : List α) (h : ∀ k ∈ l, ∃ c, F k = some c ∧ g c = k) :
    (l.filterMap F).map g = l := by
  induction l with
  | nil => rfl
  | cons k rest ih =>
    obtain ⟨c, hF, hg⟩ := h k (List.mem_cons_self k rest)
    rw [List.filterMap_cons, hF, List.map_cons, hg,
      ih (fun k' hk' => h k' (List.mem_cons_of_mem k hk'))]

theorem filter_filterMap_singleton {α β : Type} (F : α → Option β)
    (P : β → Bool) (l : List α) (k : α) (v : β)
    (hnd : l.Nodup) (hk : k ∈ l) (hFk : F k = some v) (hPv : P v = true)
    (hother : ∀ k' ∈ l, k' ≠ k → ∀ c, F k' = some c → P c = false) :
    (l.filterMap F).filter P = [v] := by
  induction l with
  | nil => simp at hk
  | cons x rest ih =>
    rw [List.nodup_cons] at hnd
    rw [List.filterMap_cons]
    rcases List.mem_cons.mp hk with hx | hx
    · subst hx
      rw [hFk, List.filter_cons_of_pos hPv]
      have hrest : (rest.filterMap F).filter P = [] := by
        rw [List.filter_eq_nil_iff]
        intro c hc
        rcases List.mem_filterMap.mp hc with ⟨k', hk', hFk'⟩
        have hne : k' ≠ k := fun hh => hnd.1 (hh ▸ hk')
        simp [hother k' (List.mem_cons_of_mem _ hk') hne c hFk']
      rw [hrest]
    · have hxk : x ≠ k := fun hh => hnd.1 (hh ▸ hx)
      have hother' : ∀ k' ∈ rest, k' ≠ k → ∀ c, F k' = some c → P c = false :=
        fun k' h' => hother k' (List.mem_cons_of_mem _ h')
      cases hFx : F x with
      | none => exact ih hnd.2 hx hother'
      | some c =>
        have hPc : P c = false :=
          hother x (List.mem_cons_self x rest) hxk c hFx
        rw [List.filter_cons_of_neg (by simp [hPc])]
        exact ih hnd.2 hx hother'

/-- C4 (amended): for a bidirectional pair (A sends on a channel B receives
on, and vice versa), provided distinct canonical pairs of the schema's
inferred connections have distinct `from->to` key strings (which holds in
particular when no service name contains `"->"`), the context view holds
exactly one connection between A and B: bidirectional, with `From` the
lexicographically smaller name; and the connection list is deduplicated by
the canonical key and sorted by it. -/
theorem contextServices_bidirectional (s : Schema) (A B : String)
    (hAB : pairHasSend s A B = true) (hBA : pairHasSend s B A = true)
    (hinj : ∀ p ∈ (servicePairsList s).map (fun e => canonPair s e.1 e.2),
      ∀ q ∈ (servicePairsList s).map (fun e => canonPair s e.1 e.2),
      keyOfPair p = keyOfPair q → p = q) :
    (prepareContextServicesPayload s).Connections.filter (fun c =>
        (decide (c.From = A) && decide (c.To = B)) ||
          (decide (c.From = B) && decide (c.To = A))) =
      [{ From := min A B, To := max A B,
         Label := determineConnectionLabel s (min A B) (max A B),
         Bidirectional := true }] ∧
    ((prepareContextServicesPayload s).Connections.map (fun c =>
        c.From ++ "->" ++ c.To)).Sorted (· ≤ ·) ∧
    ((prepareContextServicesPayload s).Connections.map (fun c =>
        c.From ++ "->" ++ c.To)).Nodup := by
  have hcAB : canonPair s A B = (min A B, max A B) := canonPair_AB s A B hAB hBA
  have hconnAB : connOfPair s A B =
      { From := min A B, To := max A B,
        Label := determineConnectionLabel s (min A B) (max A B),
        Bidirectional := true } :=
    connOfPair_between s A B A B hAB hBA hcAB
  have hmapkeys : ((prepareContextServicesPayload s).Connections.map (fun c =>
      c.From ++ "->" ++ c.To)) = contextKeys s := by
    simp only [prepareContextServicesPayload]
    apply filterMap_all_some
    intro k hk
    rcases ctxLastLookup_spec s k ((mem_contextKeys_iff s k).mp hk) with
      ⟨c, hc, -, hkey⟩
    exact ⟨c, hc, hkey⟩
  refine ⟨?_, ?_, ?_⟩
  · simp only [prepareContextServicesPayload]
    apply filter_filterMap_singleton (ctxLastLookup (contextEntries s)) _
      (contextKeys s) (keyOfPair (canonPair s A B))
      { From := min A B, To := max A B,
        Label := determineConnectionLabel s (min A B) (max A B),
        Bidirectional := true }
      (contextKeys_nodup s)
    · exact (mem_contextKeys_iff s _).mpr
        (List.mem_map.mpr ⟨_, entry_AB_mem s A B hAB, rfl⟩)
    · rw [ctxLastLookup_AB s A B hAB hBA hinj, hconnAB]
    · rcases le_total A B with h | h
      · simp [min_eq_left h, max_eq_right h]
      · have hne : A ≠ B := (pairHasSend_spec s A B hAB).1
        simp [min_eq_right h, max_eq_left h]
    · intro k' hk' hne' c hc
      have hk'' := (mem_contextKeys_iff s k').mp hk'
      rcases ctxLastLookup_spec s k' hk'' with ⟨c', hc', ⟨e, hepair, hcanon⟩,
        hkey⟩
      have hcc : c' = c := Option.some.inj (hc'.symm.trans hc)
      subst hcc
      by_contra hP
      rw [Bool.not_eq_false] at hP
      have hbetween : (c'.From = A ∧ c'.To = B) ∨
          (c'.From = B ∧ c'.To = A) := by
        simpa using hP
      have hcanon2 : canonPair s e.1 e.2 = (A, B) ∨
          canonPair s e.1 e.2 = (B, A) := by
        rcases hbetween with ⟨h1, h2⟩ | ⟨h1, h2⟩
        · left
          rw [hcanon, h1, h2]
        · right
          rw [hcanon, h1, h2]
      have hmm := canon_between s A B e.1 e.2 hAB hBA
        (servicePairsList_mem_spec s e hepair) hcanon2
      apply hne'
      have hft : (c'.From, c'.To) = (min A B, max A B) :=
        hcanon.symm.trans hmm
      rw [Prod.mk.injEq] at hft
      rw [← hkey, hft.1, hft.2, hcAB]
      rfl
  · rw [hmapkeys]
    exact contextKeys_sorted s
  · rw [hmapkeys]
    exact contextKeys_nodup s

/-- A bidirectional pair whose connection key collides with that of an
unrelated pair: service names containing the arrow separator make two
distinct canonical pairs share the key string `"x->x->y->z"`. -/
def c4CounterSchema : Schema :=
  ⟨[⟨"x", "", [⟨ActionSend, ⟨"c1", []⟩, none⟩,
      ⟨ActionReceive, ⟨"c2", []⟩, none⟩]⟩,
    ⟨"x->y->z", "", [⟨ActionReceive, ⟨"c1", []⟩, none⟩,
      ⟨ActionSend, ⟨"c2", []⟩, none⟩]⟩,
    ⟨"x->x", "", [⟨ActionSend, ⟨"c3", []⟩, none⟩]⟩,
    ⟨"y->z", "", [⟨ActionReceive, ⟨"c3", []⟩, none⟩]⟩]⟩

/-- C4 counterexample: services `"x"` and `"x->y->z"` form a bidirectional
pair, yet the context view holds no connection between them at all — the
unrelated pair `("x->x", "y->z")` produces the same map key
`"x->x->y->z"`, and the later map write clobbers the bidirectional
connection.  The claim's "exactly one Connection between A and B" fails. -/
theorem contextServices_connection_clobbered :
    (pairHasSend c4CounterSchema "x" "x->y->z" = true ∧
      pairHasSend c4CounterSchema "x->y->z" "x" = true) ∧
    (prepareContextServicesPayload c4CounterSchema).Connections =
      [{ From := "x->x", To := "y->z", Label := "Pub",
         Bidirectional := false }] ∧
    (prepareContextServicesPayload c4CounterSchema).Connections.filter
      (fun c => (decide (c.From = "x") && decide (c.To = "x->y->z")) ||
        (decide (c.From = "x->y->z") && decide (c.To = "x"))) = [] := by
  refine ⟨⟨by decide, by decide⟩, ?_, ?_⟩
  · decide
  · decide

/-- The two-service bidirectional schema used as the C4 witness input. -/
def c4WitnessSchema : Schema :=
  ⟨[⟨"a", "", [⟨ActionSend, ⟨"c1", []⟩, none⟩,
      ⟨ActionReceive, ⟨"c2", []⟩, none⟩]⟩,
    ⟨"b", "", [⟨ActionReceive, ⟨"c1", []⟩, none⟩,
      ⟨ActionSend, ⟨"c2", []⟩, none⟩]⟩]⟩

/-- Witness for C4 (amended) at a concrete bidirectional two-service
schema with collision-free keys. -/
theorem contextServices_bidirectional_witness :
    (pairHasSend c4WitnessSchema "a" "b" = true ∧
      pairHasSend c4WitnessSchema "b" "a" = true) ∧
    ((prepareContextServicesPayload c4WitnessSchema).Connections.filter
        (fun c => (decide (c.From = "a") && decide (c.To = "b")) ||
          (decide (c.From = "b") && decide (c.To = "a"))) =
      [{ From := min "a" "b", To := max "a" "b",
         Label := determineConnectionLabel c4WitnessSchema (min "a" "b")
           (max "a" "b"),
         Bidirectional := true }] ∧
    ((prepareContextServicesPayload c4WitnessSchema).Connections.map (fun c =>
        c.From ++ "->" ++ c.To)).Sorted (· ≤ ·) ∧
    ((prepareContextServicesPayload c4WitnessSchema).Connections.map (fun c =>
        c.From ++ "->" ++ c.To)).Nodup) :=
  ⟨⟨by decide, by decide⟩,
    contextServices_bidirectional c4WitnessSchema "a" "b" (by decide)
      (by decide) (by decide)⟩

end MessageFlow
